import Mathlib

/-!
Verification of the Guandan rule engine (`src/utils/guandanRules.ts` and the
display-card constructor in `SetupMatrixPanel.tsx`).

The engine is a set of pure functions over plain card data, so the shallow
embedding below translates each TypeScript function into a Lean function over
the same data model ( `Suit`, `Rank`, `Card`, `PatternResult` ).  JavaScript
numbers only ever hold small non-negative integers here (card values 2..17,
pattern primary values up to 100), except for the two intermediate `need`
quantities inside `tryTripleWithPair`, which the source compares against 0 and
are therefore embedded as `Int`.
-/

/-- The suit alphabet of `types/guandan.ts` ( `Suit` ). -/
inductive Suit where
  | Spades | Hearts | Clubs | Diamonds | Joker
deriving DecidableEq, Repr

/-- The rank alphabet of `types/guandan.ts` ( `Rank` ): 2..10, J, Q, K, A and
the two joker ranks. -/
inductive Rank where
  | r2 | r3 | r4 | r5 | r6 | r7 | r8 | r9 | r10
  | J | Q | K | A | Small | Big
deriving DecidableEq, Repr

/-- The twelve play-type names of `types/guandan.ts` ( `PlayTypeName` ). -/
inductive PlayTypeName where
  | Single | Pair | Triple | TripleWithPair | Straight | StraightFlush
  | Tube | Plate | Bomb | KingBomb | Pass | Invalid
deriving DecidableEq, Repr

/-- A card ( `Card` in `types/guandan.ts` ).  The `id : String` and the cached
`value : number` fields of the source interface are omitted: no function of the
rule engine ever reads them.  `actingAs` is kept because
`enumerateWildcardOptions` writes it (the classifier never reads it). -/
structure Card where
  suit : Suit
  rank : Rank
  isWildcard : Bool
  actingAs : Option (Suit × Rank) := none
deriving DecidableEq, Repr

instance : Inhabited Card := ⟨⟨Suit.Spades, Rank.r2, false, none⟩⟩

/-- A classification result ( `PatternResult` in `types/guandan.ts` ). -/
structure PatternResult where
  type : PlayTypeName
  primaryValue : Nat
  length : Nat
  isValid : Bool
deriving DecidableEq, Repr

/-- `SUIT_PRIORITY` : fixed display priority of the suits (Joker holds the
placeholder -1). -/
def SUIT_PRIORITY : Suit → Int
  | Suit.Spades => 0
  | Suit.Hearts => 1
  | Suit.Clubs => 2
  | Suit.Diamonds => 3
  | Suit.Joker => -1

/-- `BASE_RANK_VALUE` : the base weight of every rank (2..10 at face value,
J=11, Q=12, K=13, A=14, Small=16, Big=17). -/
def BASE_RANK_VALUE : Rank → Nat
  | Rank.r2 => 2 | Rank.r3 => 3 | Rank.r4 => 4 | Rank.r5 => 5
  | Rank.r6 => 6 | Rank.r7 => 7 | Rank.r8 => 8 | Rank.r9 => 9
  | Rank.r10 => 10 | Rank.J => 11 | Rank.Q => 12 | Rank.K => 13
  | Rank.A => 14 | Rank.Small => 16 | Rank.Big => 17

/-- `getCardValue` : dynamic weight of a card at the current level rank.
Jokers are 17/16, any non-joker card of the level rank is 15, all other cards
take their base rank value. -/
def getCardValue (card : Card) (currentLevelRank : Rank) : Nat :=
  if card.suit = Suit.Joker then
    (if card.rank = Rank.Big then 17 else 16)
  else if card.rank = currentLevelRank then 15
  else BASE_RANK_VALUE card.rank

/-- `rankToInt` : natural size of a rank for consecutiveness checks (A = 14).
The source's `?? 0` fallback is unreachable because `BASE_RANK_VALUE` covers
every rank. -/
def rankToInt (rank : Rank) : Nat := BASE_RANK_VALUE rank

/-- The comparator of `sortCards` read as a boolean "`a` may come before `b`"
relation (JavaScript `cmp a b <= 0`): wildcards first, then dynamic value
descending, then suit priority ascending. -/
def sortCmpLe (lr : Rank) (a b : Card) : Bool :=
  if a.isWildcard ≠ b.isWildcard then a.isWildcard
  else if getCardValue a lr ≠ getCardValue b lr then
    decide (getCardValue b lr < getCardValue a lr)
  else decide (SUIT_PRIORITY a.suit ≤ SUIT_PRIORITY b.suit)

/-- `sortCards` : stable sort of a copy of the hand by the comparator above
(JavaScript `Array.prototype.sort` is stable and never mutates through the
spread copy `[...cards]`). -/
def sortCards (cards : List Card) (currentLevelRank : Rank) : List Card :=
  cards.mergeSort (sortCmpLe currentLevelRank)

/-- The `nonWilds` component of `splitWildcards` (the source pushes each card
into one of two arrays, preserving order). -/
def nonWildsOf (cards : List Card) : List Card :=
  cards.filter (fun c => !c.isWildcard)

/-- The `wilds` component of `splitWildcards`. -/
def wildsOf (cards : List Card) : List Card :=
  cards.filter (fun c => c.isWildcard)

/-- Worker for `keysInOrder` : keep the first occurrence of every value not
seen yet (structural recursion so that concrete runs reduce in the kernel). -/
def keysInOrderAux (seen : List Nat) : List Nat → List Nat
  | [] => []
  | v :: rest =>
    if v ∈ seen then keysInOrderAux seen rest
    else v :: keysInOrderAux (v :: seen) rest

/-- The key list of the `countByValue` map (and of the `new Set(...)` value
sets): distinct values in first-occurrence order, as a JavaScript `Map` / `Set`
iterates its keys. -/
def keysInOrder (l : List Nat) : List Nat := keysInOrderAux [] l

/-- Number of cards of dynamic value `v` (the length of the bucket that
`countByValue` stores under key `v`). -/
def countVal (cards : List Card) (lr : Rank) (v : Nat) : Nat :=
  cards.countP (fun c => decide (getCardValue c lr = v))

/-- Value-key list of a card group: `keysInOrder` over the dynamic values. -/
def valueKeys (cards : List Card) (lr : Rank) : List Nat :=
  keysInOrder (cards.map (fun c => getCardValue c lr))

/-- Ascending insertion of a value (worker of `sortAsc`). -/
def insertAsc (v : Nat) : List Nat → List Nat
  | [] => [v]
  | w :: rest => if v ≤ w then v :: w :: rest else w :: insertAsc v rest

/-- Ascending insertion sort, embedding the source's numeric
`.sort((a, b) => a - b)` on the deduplicated value set by structural recursion
(so that concrete classifier runs reduce inside the kernel). -/
def sortAsc (l : List Nat) : List Nat := l.foldr insertAsc []

/-- Result record of `checkStraightLike` / `checkConsecutiveGroups`. -/
structure StraightCheck where
  ok : Bool
  highValue : Nat
deriving DecidableEq, Repr

/-- The gap count of one candidate window `[lo, lo+n-1]` inside
`checkStraightLike` : window slots whose natural value (14 stands for slot 1 of
the A2345 window) is missing from `uniqueVals`. -/
def straightGaps (uniqueVals : List Nat) (lo n : Nat) : Nat :=
  (List.range' lo n).countP (fun sv =>
    decide ((if lo = 1 ∧ sv = 1 then 14 else sv) ∉ uniqueVals))

/-- `checkStraightLike` : straight / straight-flush feasibility with wildcard
gap-filling.  Cards of dynamic value above 14 (level cards, jokers) are not
eligible; the candidate windows run from `lo = 1` (A2345, high card 5) to
`lo = 14 - requiredLen + 1`, scanned ascending. -/
def checkStraightLike (nonWilds : List Card) (wildcardCount requiredLen : Nat)
    (levelRank : Rank) (requireSameFlush : Bool) : StraightCheck :=
  if requireSameFlush ∧ 1 < ((nonWilds.map (fun c => c.suit)).dedup).length then
    ⟨false, 0⟩
  else
    let eligible := nonWilds.filter (fun c => decide (getCardValue c levelRank ≤ 14))
    if eligible.length + wildcardCount < requiredLen then ⟨false, 0⟩
    else if requiredLen < eligible.length then ⟨false, 0⟩
    else
      let vals := eligible.map (fun c => rankToInt c.rank)
      let uniqueVals := sortAsc (keysInOrder vals)
      if uniqueVals.length ≠ eligible.length then ⟨false, 0⟩
      else
        match (List.range' 1 (15 - requiredLen)).find?
            (fun lo => decide (straightGaps uniqueVals lo requiredLen ≤ wildcardCount)) with
        | some lo => ⟨true, if lo = 1 then 5 else lo + requiredLen - 1⟩
        | none => ⟨false, 0⟩

/-- The per-window feasibility test of `checkConsecutiveGroups` : every slot of
`[lo, lo+groupCount-1]` is filled to `groupSize` cards, missing cards coming
from the wildcard budget (a slot holding more than `groupSize` cards makes the
need infinite, i.e. the window infeasible). -/
def groupsNeedOk (nonWilds : List Card) (lr : Rank)
    (wildcardCount groupCount groupSize lo : Nat) : Bool :=
  let seg := List.range' lo groupCount
  if seg.any (fun sv => decide (groupSize < countVal nonWilds lr sv)) then false
  else decide ((seg.map (fun sv => groupSize - countVal nonWilds lr sv)).sum ≤ wildcardCount)

/-- `checkConsecutiveGroups` : Tube (three consecutive pairs) / Plate (two
consecutive triples) feasibility, windows `lo = 2` to `14 - groupCount + 1`
scanned ascending; values above 14 never join, and no value may occur more
often than `groupSize`. -/
def checkConsecutiveGroups (nonWilds : List Card) (wildcardCount groupCount groupSize : Nat)
    (levelRank : Rank) : StraightCheck :=
  if nonWilds.length + wildcardCount ≠ groupCount * groupSize then ⟨false, 0⟩
  else
    let keys := valueKeys nonWilds levelRank
    if keys.any (fun v => decide (14 < v)) then ⟨false, 0⟩
    else if keys.any (fun v => decide (groupSize < countVal nonWilds levelRank v)) then ⟨false, 0⟩
    else
      match (List.range' 2 (14 - groupCount)).find?
          (groupsNeedOk nonWilds levelRank wildcardCount groupCount groupSize) with
      | some lo => ⟨true, lo + groupCount - 1⟩
      | none => ⟨false, 0⟩

/-- `INVALID` : the single fallback result `{Invalid, 0, 0, false}` (note that
its recorded `length` is the constant 0). -/
def INVALID : PatternResult := ⟨PlayTypeName.Invalid, 0, 0, false⟩

/-- The body of the `pairVal` iteration of `tryTripleWithPair` : value `pv`
can serve as the pair when no third value is left over, its shortfall to two
cards is not negative and fits the remaining wildcards. -/
def twpPairOk (pairCandidates : List Nat) (cnt : Nat → Nat) (remainingWilds : Int)
    (pv : Nat) : Bool :=
  let otherCount := ((pairCandidates.filter (fun v => decide (v ≠ pv))).map cnt).sum
  let pairNeed : Int := 2 - cnt pv
  decide (otherCount = 0) && decide (0 ≤ pairNeed) && decide (pairNeed ≤ remainingWilds)

/-- The body of the `tripleVal` iteration of `tryTripleWithPair` : can value
`tv` serve as the triple, with some other value (or pure wildcards) as the
pair?  The source returns `{TripleWithPair, tv, 5, true}` from the first
`pairVal` that fits, so only the existence of a fitting `pairVal` matters,
which the inner loop is embedded as. -/
def twpFeasible (keys : List Nat) (cnt : Nat → Nat) (wildcardCount : Nat) (tv : Nat) : Bool :=
  let tripleNeed : Int := 3 - cnt tv
  if tripleNeed < 0 ∨ (wildcardCount : Int) < tripleNeed then false
  else
    let remainingWilds : Int := (wildcardCount : Int) - tripleNeed
    let pairCandidates := keys.filter (fun v => decide (v ≠ tv))
    if pairCandidates.isEmpty then decide (2 ≤ remainingWilds)
    else pairCandidates.any (twpPairOk pairCandidates cnt remainingWilds)

/-- `tryTripleWithPair` : find a 3+2 split of five cards (wildcards filling
shortfalls); rejects groups holding a joker value (16 or above); returns the
result for the first workable triple value in key order, else `INVALID`. -/
def tryTripleWithPair (nonWilds : List Card) (wildcardCount : Nat) (levelRank : Rank) :
    PatternResult :=
  let keys := valueKeys nonWilds levelRank
  if keys.any (fun v => decide (16 ≤ v)) then INVALID
  else
    match keys.find? (twpFeasible keys (countVal nonWilds levelRank) wildcardCount) with
    | some tv => ⟨PlayTypeName.TripleWithPair, tv, 5, true⟩
    | none => INVALID

/-- The bomb block of `identifyPattern` (runs for `n ≥ 4`): all non-wildcards
share one value, none of them is a joker, and wildcards fill up to `n`.
`none` means the block falls through.  The source tests
`!nonWilds.some(Joker)` twice in a row (`valueMap.size <= 1 && !...` and then
`hasJokerInNonWild` again); the two tests are identical, so they are embedded
once.  The key match mirrors `valueMap.size === 0` (fall through) versus the
destructuring `[[bv, bCards]]` of the single entry, whose bucket length is
`countVal` at `bv`. -/
def classifyBombBlock (n : Nat) (nonWilds : List Card) (wc : Nat) (lr : Rank) :
    Option PatternResult :=
  if 4 ≤ n then
    if (valueKeys nonWilds lr).length ≤ 1 ∧ ¬ nonWilds.any (fun c => decide (c.suit = Suit.Joker)) then
      match valueKeys nonWilds lr with
      | [] => none
      | bv :: _ =>
        if countVal nonWilds lr bv + wc = n then some ⟨PlayTypeName.Bomb, bv, n, true⟩
        else none
    else none
  else none

/-- The 2-card block of `identifyPattern` : two jokers are never a pair; a
wildcard plus one non-joker card is a pair at that card's value; otherwise two
wildcard-free cards pair iff they share a value and are not jokers. -/
def classifyTwo (cards nonWilds : List Card) (wc : Nat) (lr : Rank) : PatternResult :=
  if cards.all (fun c => decide (c.suit = Suit.Joker)) then INVALID
  else if wc = 1 ∧ nonWilds.length = 1 ∧ (nonWilds.getD 0 default).suit ≠ Suit.Joker then
    ⟨PlayTypeName.Pair, getCardValue (nonWilds.getD 0 default) lr, 2, true⟩
  else if wc = 0 then
    if getCardValue (cards.getD 0 default) lr = getCardValue (cards.getD 1 default) lr
        ∧ (cards.getD 0 default).suit ≠ Suit.Joker then
      ⟨PlayTypeName.Pair, getCardValue (cards.getD 0 default) lr, 2, true⟩
    else INVALID
  else INVALID

/-- The 3-card block of `identifyPattern` : no jokers allowed; all non-wildcard
values equal (the `nonWilds.length + wc === 3` test of the first branch is
always true at `n = 3`); the source's second branch (`wc > 0` and one value) is
subsumed by the first but embedded faithfully. -/
def classifyThree (cards nonWilds : List Card) (wc : Nat) (lr : Rank) : PatternResult :=
  if cards.any (fun c => decide (c.suit = Suit.Joker)) then INVALID
  else
    let keys := valueKeys nonWilds lr
    if keys.length = 1 ∧ nonWilds.length + wc = 3 then
      ⟨PlayTypeName.Triple, keys.getD 0 0, 3, true⟩
    else if 0 < wc ∧ keys.length = 1 then
      ⟨PlayTypeName.Triple, keys.getD 0 0, 3, true⟩
    else INVALID

/-- The 5-card block of `identifyPattern` : straight first, then straight
flush, then (if no non-wildcard joker is present) triple-with-pair. -/
def classifyFive (cards nonWilds : List Card) (wc : Nat) (lr : Rank) : PatternResult :=
  let s := checkStraightLike nonWilds wc 5 lr false
  if s.ok then ⟨PlayTypeName.Straight, s.highValue, 5, true⟩
  else
    let sf := checkStraightLike nonWilds wc 5 lr true
    if sf.ok then ⟨PlayTypeName.StraightFlush, sf.highValue, 5, true⟩
    else if ¬ cards.any (fun c => decide (c.suit = Suit.Joker ∧ c.isWildcard = false)) then
      let res := tryTripleWithPair nonWilds wc lr
      if res.isValid then res else INVALID
    else INVALID

/-- The 6-card block of `identifyPattern` : plate, then tube, then the (dead,
already handled by the bomb block) 6-card bomb rescan. -/
def classifySix (nonWilds : List Card) (wc : Nat) (lr : Rank) : PatternResult :=
  let plate := checkConsecutiveGroups nonWilds wc 2 3 lr
  if plate.ok then ⟨PlayTypeName.Plate, plate.highValue, 6, true⟩
  else
    let tube := checkConsecutiveGroups nonWilds wc 3 2 lr
    if tube.ok then ⟨PlayTypeName.Tube, tube.highValue, 6, true⟩
    else
      let keys := valueKeys nonWilds lr
      if keys.length ≤ 1 ∧ nonWilds.all (fun c => decide (c.suit ≠ Suit.Joker)) then
        if 0 < keys.getD 0 0 then ⟨PlayTypeName.Bomb, keys.getD 0 0, 6, true⟩ else INVALID
      else INVALID

/-- The 7-plus block of `identifyPattern` : only a long straight of the full
length (bombs were already handled). -/
def classifySevenPlus (n : Nat) (nonWilds : List Card) (wc : Nat) (lr : Rank) : PatternResult :=
  let s := checkStraightLike nonWilds wc n lr false
  if s.ok then ⟨PlayTypeName.Straight, s.highValue, n, true⟩ else INVALID

/-- `identifyPattern` : the main classifier, block for block in source order
(empty, KingBomb, bomb, single, pure-joker guard, 2, 3, 5, 6, 7+, fallback).
The pure-joker guard of the source (`nonWilds.every(Joker) && wc === 0`
enclosing `cards.every(Joker)`) is embedded as the conjunction of the two
nested tests. -/
def identifyPattern (cards : List Card) (currentLevelRank : Rank) : PatternResult :=
  let n := cards.length
  if n = 0 then INVALID
  else
    let nonWilds := nonWildsOf cards
    let wc := (wildsOf cards).length
    if n = 4 ∧ cards.countP (fun c => decide (c.rank = Rank.Big)) = 2
        ∧ cards.countP (fun c => decide (c.rank = Rank.Small)) = 2 then
      ⟨PlayTypeName.KingBomb, 100, 4, true⟩
    else
      match classifyBombBlock n nonWilds wc currentLevelRank with
      | some r => r
      | none =>
        if n = 1 then
          ⟨PlayTypeName.Single, getCardValue (cards.getD 0 default) currentLevelRank, 1, true⟩
        else if (nonWilds.all (fun c => decide (c.suit = Suit.Joker)) ∧ wc = 0)
            ∧ cards.all (fun c => decide (c.suit = Suit.Joker)) then INVALID
        else if n = 2 then classifyTwo cards nonWilds wc currentLevelRank
        else if n = 3 then classifyThree cards nonWilds wc currentLevelRank
        else if n = 5 then classifyFive cards nonWilds wc currentLevelRank
        else if n = 6 then classifySix nonWilds wc currentLevelRank
        else if 7 ≤ n then classifySevenPlus n nonWilds wc currentLevelRank
        else INVALID

/-- `getBombRank` (the file-local `bombRank`): KingBomb 7, straight flush 3,
generic bombs tiered by card count, everything else 0. -/
def bombRank (pattern : PatternResult) : Nat :=
  if pattern.type = PlayTypeName.KingBomb then 7
  else if pattern.type = PlayTypeName.StraightFlush then 3
  else if pattern.type = PlayTypeName.Bomb then
    if 8 ≤ pattern.length then 6
    else if pattern.length = 7 then 5
    else if pattern.length = 6 then 4
    else if pattern.length = 5 then 2
    else 1
  else 0

/-- `canBeat` : does `newPattern` supersede `oldPattern`. -/
def canBeat (newPattern oldPattern : PatternResult) : Bool :=
  if ¬ newPattern.isValid ∨ ¬ oldPattern.isValid then false
  else if oldPattern.type = PlayTypeName.Pass then true
  else
    let newBR := bombRank newPattern
    let oldBR := bombRank oldPattern
    if 0 < newBR ∧ 0 < oldBR then
      if newBR ≠ oldBR then decide (oldBR < newBR)
      else if newPattern.length ≠ oldPattern.length then
        decide (oldPattern.length < newPattern.length)
      else decide (oldPattern.primaryValue < newPattern.primaryValue)
    else if 0 < newBR ∧ oldBR = 0 then true
    else if newBR = 0 ∧ 0 < oldBR then false
    else if newPattern.type ≠ oldPattern.type then false
    else if newPattern.length ≠ oldPattern.length then false
    else decide (oldPattern.primaryValue < newPattern.primaryValue)

/-- A wildcard substitution suggestion ( `WildcardSuggestion` ); the display
label is built from the suit symbol and the rank label as in the source. -/
structure WildcardSuggestion where
  suit : Suit
  rank : Rank
  displayLabel : String
deriving DecidableEq, Repr

/-- The suit symbols used for `displayLabel`. -/
def suitSymbol : Suit → String
  | Suit.Spades => "♠"
  | Suit.Hearts => "♥"
  | Suit.Clubs => "♣"
  | Suit.Diamonds => "♦"
  | Suit.Joker => "🃏"

/-- The rank text used for `displayLabel` (the template string interpolates the
rank literal). -/
def rankLabel : Rank → String
  | Rank.r2 => "2" | Rank.r3 => "3" | Rank.r4 => "4" | Rank.r5 => "5"
  | Rank.r6 => "6" | Rank.r7 => "7" | Rank.r8 => "8" | Rank.r9 => "9"
  | Rank.r10 => "10" | Rank.J => "J" | Rank.Q => "Q" | Rank.K => "K"
  | Rank.A => "A" | Rank.Small => "Small" | Rank.Big => "Big"

/-- `SUITS_NORMAL` of `enumerateWildcardOptions`. -/
def SUITS_NORMAL : List Suit := [Suit.Spades, Suit.Hearts, Suit.Clubs, Suit.Diamonds]

/-- `RANKS_NORMAL` of `enumerateWildcardOptions`. -/
def RANKS_NORMAL : List Rank :=
  [Rank.r2, Rank.r3, Rank.r4, Rank.r5, Rank.r6, Rank.r7, Rank.r8, Rank.r9,
   Rank.r10, Rank.J, Rank.Q, Rank.K, Rank.A]

/-- The closing de-duplication of `enumerateWildcardOptions` : keep the first
suggestion per (suit, rank) key. -/
def dedupSuggestions (seen : List (Suit × Rank)) : List WildcardSuggestion → List WildcardSuggestion
  | [] => []
  | s :: rest =>
    if (s.suit, s.rank) ∈ seen then dedupSuggestions seen rest
    else s :: dedupSuggestions ((s.suit, s.rank) :: seen) rest

/-- `enumerateWildcardOptions` : for each candidate (suit, rank) of the normal
52-card grid — skipping the wildcard's own identity (Hearts at the level rank)
and identities already present among the non-wildcard cards — build the trial
set by replacing every wildcard `c` with `{...c, actingAs, isWildcard: false}`
(the card's own `suit` and `rank` fields are NOT changed by the source), run
`identifyPattern`, and keep the candidate if the result is valid;
finally de-duplicate.  The source keys its exclusion set with the template
string `suit-rank`, embedded as the (suit, rank) pair the key encodes. -/
def enumerateWildcardOptions (cards : List Card) (currentLevelRank : Rank) :
    List WildcardSuggestion :=
  if (cards.filter (fun c => c.isWildcard)).length = 0 then []
  else
    let nonWildKeys := (cards.filter (fun c => !c.isWildcard)).map (fun c => (c.suit, c.rank))
    let suggestions := SUITS_NORMAL.flatMap (fun suit =>
      RANKS_NORMAL.filterMap (fun rank =>
        if rank = currentLevelRank ∧ suit = Suit.Hearts then none
        else if (suit, rank) ∈ nonWildKeys then none
        else
          let testCards := cards.map (fun c =>
            if c.isWildcard then { c with actingAs := some (suit, rank), isWildcard := false }
            else c)
          let result := identifyPattern testCards currentLevelRank
          if result.isValid ∧ result.type ≠ PlayTypeName.Invalid then
            some ⟨suit, rank, suitSymbol suit ++ rankLabel rank⟩
          else none))
    dedupSuggestions [] suggestions

/-- `makeCardForDisplay` of `SetupMatrixPanel.tsx` : the display-card
constructor, which computes the wildcard flag as
`suit === Hearts && rank === levelRank && rank !== Small && rank !== Big`
(the `id` and cached `value` fields are again omitted as unread). -/
def makeCardForDisplay (suit : Suit) (rank : Rank) (levelRank : Rank) : Card :=
  { suit := suit, rank := rank,
    isWildcard := suit = Suit.Hearts ∧ rank = levelRank
      ∧ rank ≠ Rank.Small ∧ rank ≠ Rank.Big,
    actingAs := none }

/-! ## General helper lemmas -/

theorem bool_all_congr_perm {α : Type} {l l' : List α} (p : α → Bool) (h : l.Perm l') :
    l.all p = l'.all p := by
  rw [Bool.eq_iff_iff, List.all_eq_true, List.all_eq_true]
  exact ⟨fun hh x hx => hh x (h.mem_iff.mpr hx), fun hh x hx => hh x (h.mem_iff.mp hx)⟩

theorem bool_any_congr_perm {α : Type} {l l' : List α} (p : α → Bool) (h : l.Perm l') :
    l.any p = l'.any p := by
  rw [Bool.eq_iff_iff, List.any_eq_true, List.any_eq_true]
  exact ⟨fun ⟨x, hx, hpx⟩ => ⟨x, h.mem_iff.mp hx, hpx⟩,
    fun ⟨x, hx, hpx⟩ => ⟨x, h.mem_iff.mpr hx, hpx⟩⟩

theorem mem_keysInOrderAux (l : List Nat) (seen : List Nat) (a : Nat) :
    a ∈ keysInOrderAux seen l ↔ a ∈ l ∧ a ∉ seen := by
  induction l generalizing seen with
  | nil => simp [keysInOrderAux]
  | cons v rest ih =>
    by_cases hv : v ∈ seen
    · rw [keysInOrderAux, if_pos hv, ih]
      simp only [List.mem_cons]
      constructor
      · rintro ⟨hm, hs⟩
        exact ⟨Or.inr hm, hs⟩
      · rintro ⟨rfl | hm, hs⟩
        · exact absurd hv hs
        · exact ⟨hm, hs⟩
    · rw [keysInOrderAux, if_neg hv]
      simp only [List.mem_cons, ih]
      constructor
      · rintro (rfl | ⟨hm, hs⟩)
        · exact ⟨Or.inl rfl, hv⟩
        · exact ⟨Or.inr hm, fun hx => hs (Or.inr hx)⟩
      · rintro ⟨rfl | hm, hs⟩
        · exact Or.inl rfl
        · by_cases hav : a = v
          · exact Or.inl hav
          · refine Or.inr ⟨hm, fun hx => ?_⟩
            rcases hx with h1 | h2
            · exact hav h1
            · exact hs h2

theorem mem_keysInOrder (l : List Nat) (a : Nat) : a ∈ keysInOrder l ↔ a ∈ l := by
  rw [keysInOrder, mem_keysInOrderAux]
  simp

theorem nodup_keysInOrderAux (l : List Nat) (seen : List Nat) :
    (keysInOrderAux seen l).Nodup := by
  induction l generalizing seen with
  | nil => simp [keysInOrderAux]
  | cons v rest ih =>
    by_cases hv : v ∈ seen
    · rw [keysInOrderAux, if_pos hv]
      exact ih seen
    · rw [keysInOrderAux, if_neg hv]
      refine List.Nodup.cons ?_ (ih (v :: seen))
      intro hmem
      rcases (mem_keysInOrderAux rest (v :: seen) v).mp hmem with ⟨-, hs⟩
      exact hs (List.mem_cons_self _ _)

theorem nodup_keysInOrder (l : List Nat) : (keysInOrder l).Nodup :=
  nodup_keysInOrderAux l []

theorem keysInOrderAux_of_nodup {l : List Nat} (seen : List Nat) (h : l.Nodup)
    (hs : ∀ a ∈ l, a ∉ seen) : keysInOrderAux seen l = l := by
  induction l generalizing seen with
  | nil => rw [keysInOrderAux]
  | cons v rest ih =>
    rcases List.nodup_cons.mp h with ⟨hv, hrest⟩
    rw [keysInOrderAux, if_neg (hs v (List.mem_cons_self _ _))]
    rw [ih (v :: seen) hrest]
    intro a ha hmem
    rcases List.mem_cons.mp hmem with rfl | hmem
    · exact hv ha
    · exact hs a (List.mem_cons_of_mem _ ha) hmem

theorem keysInOrder_of_nodup {l : List Nat} (h : l.Nodup) : keysInOrder l = l :=
  keysInOrderAux_of_nodup [] h (by simp)

theorem keysInOrder_subset (l : List Nat) : keysInOrder l ⊆ l :=
  fun a ha => (mem_keysInOrder l a).mp ha

theorem keysInOrder_perm {l l' : List Nat} (h : l.Perm l') :
    (keysInOrder l).Perm (keysInOrder l') := by
  rw [List.perm_ext_iff_of_nodup (nodup_keysInOrder l) (nodup_keysInOrder l')]
  intro a
  rw [mem_keysInOrder, mem_keysInOrder]
  exact h.mem_iff

theorem keysInOrder_length_le (l : List Nat) : (keysInOrder l).length ≤ l.length :=
  ((nodup_keysInOrder l).subperm (keysInOrder_subset l)).length_le

theorem nodup_of_keysInOrder_length {l : List Nat}
    (h : (keysInOrder l).length = l.length) : l.Nodup := by
  have hsub := (nodup_keysInOrder l).subperm (keysInOrder_subset l)
  have hperm := hsub.perm_of_length_le (le_of_eq h.symm)
  exact hperm.symm.nodup_iff.mpr (nodup_keysInOrder l)

/-! ## Claim C1: `canBeat` implements the spec's ordered comparison rules -/

/-- Modelled from the spec's comparison rules, step 3: the bomb rank table
(KingBomb 7, StraightFlush 3, generic Bomb by card count with the four-card
tier as the residual case — a generic bomb always holds at least four cards —
and all other types 0). -/
def bombRankSpec (p : PatternResult) : Nat :=
  if p.type = PlayTypeName.KingBomb then 7
  else if p.type = PlayTypeName.StraightFlush then 3
  else if p.type = PlayTypeName.Bomb then
    if 8 ≤ p.length then 6
    else if p.length = 7 then 5
    else if p.length = 6 then 4
    else if p.length = 5 then 2
    else 1
  else 0

/-- Modelled from the spec's comparison rules, steps 1–6: invalid loses;
a valid candidate beats a Pass incumbent; two bombs compare by bomb rank, then
length, then primary value; a lone bomb side wins; otherwise the candidate
wins iff type and length match exactly and its primary value is greater. -/
def canBeatSpec (cand inc : PatternResult) : Bool :=
  if ¬ cand.isValid ∨ ¬ inc.isValid then false
  else if inc.type = PlayTypeName.Pass then true
  else
    let cb := bombRankSpec cand
    let ib := bombRankSpec inc
    if 0 < cb ∧ 0 < ib then
      if cb ≠ ib then decide (ib < cb)
      else if cand.length ≠ inc.length then decide (inc.length < cand.length)
      else decide (inc.primaryValue < cand.primaryValue)
    else if 0 < cb ∧ ib = 0 then true
    else if cb = 0 ∧ 0 < ib then false
    else
      decide (cand.type = inc.type) && decide (cand.length = inc.length)
        && decide (inc.primaryValue < cand.primaryValue)

theorem bombRank_eq_spec (p : PatternResult) : bombRank p = bombRankSpec p := rfl

/-- C1: for every pair of `PatternResult`s, `canBeat` agrees with the spec's
ordered comparison rules (invalid → false; Pass incumbent → any valid
candidate wins; the bomb-rank table with rank, then length, then primaryValue
tiebreaks; lone bomb wins; otherwise exact type and length match with strictly
greater primaryValue). -/
theorem nonbomb_clause_eq (t1 t2 : PlayTypeName) (l1 l2 p1 p2 : Nat) :
    (if t1 ≠ t2 then false else if l1 ≠ l2 then false else decide (p2 < p1))
      = (decide (t1 = t2) && decide (l1 = l2) && decide (p2 < p1)) := by
  by_cases h1 : t1 = t2 <;> by_cases h2 : l1 = l2 <;> simp [h1, h2]

theorem claim1_canBeat_matches_spec (cand inc : PatternResult) :
    canBeat cand inc = canBeatSpec cand inc := by
  unfold canBeat canBeatSpec
  rw [← bombRank_eq_spec, ← bombRank_eq_spec]
  simp only [nonbomb_clause_eq]

/-! ## Claim C2: the KingBomb check -/

theorem countP_disjoint_le {α : Type} (p q : α → Bool) (l : List α)
    (hd : ∀ a, ¬(p a = true ∧ q a = true)) :
    l.countP p + l.countP q ≤ l.length := by
  induction l with
  | nil => simp
  | cons a l ih =>
    rw [List.countP_cons, List.countP_cons, List.length_cons]
    by_cases hp : p a = true
    · have hq : ¬ q a = true := fun h => hd a ⟨hp, h⟩
      simp [hp, hq]
      omega
    · by_cases hq : q a = true <;> simp [hp, hq] <;> omega

theorem countP_disjoint_cover {α : Type} (p q : α → Bool) (l : List α)
    (hd : ∀ a, ¬(p a = true ∧ q a = true))
    (h : l.countP p + l.countP q = l.length) :
    ∀ a ∈ l, p a = true ∨ q a = true := by
  induction l with
  | nil => simp
  | cons a l ih =>
    have hle := countP_disjoint_le p q l hd
    rw [List.countP_cons, List.countP_cons, List.length_cons] at h
    have hcover : p a = true ∨ q a = true := by
      by_contra hno
      push_neg at hno
      simp [hno.1, hno.2] at h
      omega
    intro b hb
    rcases List.mem_cons.mp hb with rfl | hb
    · exact hcover
    · refine ih ?_ b hb
      rcases hcover with hp | hq
      · have hq : ¬ q a = true := fun hx => hd a ⟨hp, hx⟩
        simp [hp, hq] at h
        omega
      · have hp : ¬ p a = true := fun hx => hd a ⟨hx, hq⟩
        simp [hp, hq] at h
        omega

theorem bombRank_le_of_ne_king {r : PatternResult}
    (h : r.type ≠ PlayTypeName.KingBomb) : bombRank r ≤ 6 := by
  unfold bombRank
  rw [if_neg h]
  split_ifs <;> omega

theorem canBeat_king_all {r : PatternResult} (hv : r.isValid = true)
    (hnk : r.type ≠ PlayTypeName.KingBomb) :
    canBeat ⟨PlayTypeName.KingBomb, 100, 4, true⟩ r = true := by
  unfold canBeat
  rw [if_neg (by simp [hv])]
  by_cases hpass : r.type = PlayTypeName.Pass
  · rw [if_pos hpass]
  · rw [if_neg hpass]
    have h7 : bombRank ⟨PlayTypeName.KingBomb, 100, 4, true⟩ = 7 := rfl
    have hle := bombRank_le_of_ne_king hnk
    simp only [h7]
    by_cases hob : 0 < bombRank r
    · rw [if_pos ⟨by omega, hob⟩, if_pos (by omega)]
      simp
      omega
    · rw [if_neg (by omega), if_pos ⟨by omega, by omega⟩]

/-- C2: a 4-card input holding exactly two Big Jokers and exactly two Small
Jokers classifies as `{KingBomb, 100, 4, valid}` — the KingBomb branch runs
before every other shape check, so no other branch can preempt this result —
and the KingBomb result beats every other valid result. -/
theorem claim2_kingbomb_classification (cards : List Card) (lr : Rank)
    (hlen : cards.length = 4)
    (hbig : cards.countP (fun c => decide (c.suit = Suit.Joker ∧ c.rank = Rank.Big)) = 2)
    (hsmall : cards.countP (fun c => decide (c.suit = Suit.Joker ∧ c.rank = Rank.Small)) = 2) :
    identifyPattern cards lr = ⟨PlayTypeName.KingBomb, 100, 4, true⟩
    ∧ ∀ r : PatternResult, r.isValid = true → r.type ≠ PlayTypeName.KingBomb →
        canBeat ⟨PlayTypeName.KingBomb, 100, 4, true⟩ r = true := by
  have hd : ∀ c : Card, ¬(decide (c.suit = Suit.Joker ∧ c.rank = Rank.Big) = true
      ∧ decide (c.suit = Suit.Joker ∧ c.rank = Rank.Small) = true) := by
    intro c hc
    rcases hc with ⟨h1, h2⟩
    simp only [decide_eq_true_eq] at h1 h2
    rw [h1.2] at h2
    exact absurd h2.2 (by decide)
  have hcover := countP_disjoint_cover _ _ cards hd (by omega)
  have hcb : cards.countP (fun c => decide (c.rank = Rank.Big)) = 2 := by
    rw [← hbig]
    refine List.countP_congr ?_
    intro c hc
    simp only [decide_eq_true_eq]
    constructor
    · intro hr
      rcases hcover c hc with hj | hj <;> simp only [decide_eq_true_eq] at hj
      · exact hj
      · rw [hj.2] at hr
        exact absurd hr (by decide)
    · exact fun h => h.2
  have hcs : cards.countP (fun c => decide (c.rank = Rank.Small)) = 2 := by
    rw [← hsmall]
    refine List.countP_congr ?_
    intro c hc
    simp only [decide_eq_true_eq]
    constructor
    · intro hr
      rcases hcover c hc with hj | hj <;> simp only [decide_eq_true_eq] at hj
      · rw [hj.2] at hr
        exact absurd hr (by decide)
      · exact hj
    · exact fun h => h.2
  constructor
  · unfold identifyPattern
    rw [if_neg (by omega)]
    rw [if_pos ⟨hlen, hcb, hcs⟩]
  · exact fun r hv hnk => canBeat_king_all hv hnk

/-! ## Claim C3: the dynamic value function -/

/-- A rank that appears on a physical non-joker card (2..10, J, Q, K, A). -/
def naturalRank (r : Rank) : Prop := r ≠ Rank.Small ∧ r ≠ Rank.Big

instance (r : Rank) : Decidable (naturalRank r) := by
  unfold naturalRank
  infer_instance

/-- C3: `getCardValue` is total (a Lean function) and returns the natural
value 2..14 for natural-rank cards off the level rank, 15 for every non-joker
card of the level rank regardless of suit, 16 for the Small Joker and 17 for
the Big Joker; the non-Hearts level-rank cards are not wildcards while the
Hearts level-rank card is (wildcard flags per `makeCardForDisplay`). -/
theorem claim3_dynamic_value (lr : Rank) :
    (∀ c : Card, c.suit ≠ Suit.Joker → naturalRank c.rank → c.rank ≠ lr →
      getCardValue c lr = BASE_RANK_VALUE c.rank
        ∧ 2 ≤ getCardValue c lr ∧ getCardValue c lr ≤ 14)
    ∧ (∀ c : Card, c.suit ≠ Suit.Joker → c.rank = lr → getCardValue c lr = 15)
    ∧ (∀ c : Card, c.suit = Suit.Joker →
        (c.rank = Rank.Small → getCardValue c lr = 16)
        ∧ (c.rank = Rank.Big → getCardValue c lr = 17))
    ∧ (naturalRank lr → ∀ s : Suit, s ≠ Suit.Joker →
        ((makeCardForDisplay s lr lr).isWildcard = true ↔ s = Suit.Hearts)
        ∧ getCardValue (makeCardForDisplay s lr lr) lr = 15) := by
  refine ⟨?_, ?_, ?_, ?_⟩
  · intro c hs hn hne
    have hval : getCardValue c lr = BASE_RANK_VALUE c.rank := by
      unfold getCardValue
      rw [if_neg hs, if_neg hne]
    refine ⟨hval, ?_, ?_⟩ <;> rw [hval] <;>
      rcases hn with ⟨h1, h2⟩ <;> cases hc : c.rank <;> simp_all [BASE_RANK_VALUE]
  · intro c hs he
    unfold getCardValue
    rw [if_neg hs, if_pos he]
  · intro c hs
    constructor <;> intro hr <;> unfold getCardValue <;> rw [if_pos hs] <;> rw [hr]
    · rw [if_neg (by decide)]
    · rw [if_pos rfl]
  · intro hn s hs
    constructor
    · unfold makeCardForDisplay
      rcases hn with ⟨h1, h2⟩
      simp [h1, h2]
    · unfold getCardValue makeCardForDisplay
      rw [if_neg hs, if_pos rfl]

/-- Closed instantiation of C3 at level rank 5: the club 5 is a plain level
card of value 15, the spade 5 is not a wildcard, the heart 5 is, and the spade
7 keeps its natural value 7. -/
theorem claim3_dynamic_value_witness :
    getCardValue ⟨Suit.Clubs, Rank.r5, false, none⟩ Rank.r5 = 15
    ∧ (makeCardForDisplay Suit.Spades Rank.r5 Rank.r5).isWildcard = false
    ∧ (makeCardForDisplay Suit.Hearts Rank.r5 Rank.r5).isWildcard = true
    ∧ getCardValue ⟨Suit.Spades, Rank.r7, false, none⟩ Rank.r5 = 7 := by
  have h := claim3_dynamic_value Rank.r5
  refine ⟨h.2.1 _ (by decide) rfl, ?_, ?_, ?_⟩
  · have hiff := (h.2.2.2 (by exact ⟨by decide, by decide⟩) Suit.Spades (by decide)).1
    have : ¬ (makeCardForDisplay Suit.Spades Rank.r5 Rank.r5).isWildcard = true := by
      intro hx
      exact absurd (hiff.mp hx) (by decide)
    simpa using this
  · exact (h.2.2.2 (by exact ⟨by decide, by decide⟩) Suit.Hearts (by decide)).1.mpr rfl
  · have := (h.1 ⟨Suit.Spades, Rank.r7, false, none⟩ (by decide) (by decide) (by decide)).1
    rw [this]
    rfl

/-- Closed instantiation of C2: two Big and two Small Jokers at level rank 2
classify as the KingBomb, and the KingBomb beats an 8-card bomb of aces. -/
theorem claim2_kingbomb_classification_witness :
    identifyPattern [⟨Suit.Joker, Rank.Big, false, none⟩, ⟨Suit.Joker, Rank.Big, false, none⟩,
        ⟨Suit.Joker, Rank.Small, false, none⟩, ⟨Suit.Joker, Rank.Small, false, none⟩] Rank.r2
      = ⟨PlayTypeName.KingBomb, 100, 4, true⟩
    ∧ canBeat ⟨PlayTypeName.KingBomb, 100, 4, true⟩ ⟨PlayTypeName.Bomb, 14, 8, true⟩ = true := by
  have h := claim2_kingbomb_classification
    [⟨Suit.Joker, Rank.Big, false, none⟩, ⟨Suit.Joker, Rank.Big, false, none⟩,
     ⟨Suit.Joker, Rank.Small, false, none⟩, ⟨Suit.Joker, Rank.Small, false, none⟩] Rank.r2
    (by decide) (by decide) (by decide)
  exact ⟨h.1, h.2 ⟨PlayTypeName.Bomb, 14, 8, true⟩ rfl (by decide)⟩

/-! ## Claims C8 and C9: the hand sorter -/

theorem sortCmpLe_total (lr : Rank) (a b : Card) :
    (sortCmpLe lr a b || sortCmpLe lr b a) = true := by
  unfold sortCmpLe
  cases ha : a.isWildcard <;> cases hb : b.isWildcard <;>
    simp_all <;> split_ifs <;> (try simp_all) <;> omega

theorem sortCmpLe_trans (lr : Rank) (a b c : Card) :
    sortCmpLe lr a b = true → sortCmpLe lr b c = true → sortCmpLe lr a c = true := by
  unfold sortCmpLe
  cases ha : a.isWildcard <;> cases hb : b.isWildcard <;> cases hc : c.isWildcard <;>
    simp_all <;> split_ifs <;> (try simp_all) <;> omega

/-- The ordering claimed by the spec for `sortHand` : wildcards precede
non-wildcards; inside each group the dynamic value never increases; at equal
value the fixed suit priority never decreases. -/
def sortKeyRel (lr : Rank) (a b : Card) : Prop :=
  (a.isWildcard = true ∧ b.isWildcard = false)
  ∨ (a.isWildcard = b.isWildcard ∧
      (getCardValue b lr < getCardValue a lr
        ∨ (getCardValue a lr = getCardValue b lr
            ∧ SUIT_PRIORITY a.suit ≤ SUIT_PRIORITY b.suit)))

theorem sortCmpLe_imp_rel {lr : Rank} {a b : Card} (h : sortCmpLe lr a b = true) :
    sortKeyRel lr a b := by
  unfold sortCmpLe at h
  unfold sortKeyRel
  by_cases hw : a.isWildcard = b.isWildcard
  · rw [if_neg (by simp [hw])] at h
    by_cases hv : getCardValue a lr = getCardValue b lr
    · rw [if_neg (by simp [hv])] at h
      exact Or.inr ⟨hw, Or.inr ⟨hv, by simpa using h⟩⟩
    · rw [if_pos hv] at h
      exact Or.inr ⟨hw, Or.inl (by simpa using h)⟩
  · rw [if_pos hw] at h
    cases ha : a.isWildcard with
    | false => rw [ha] at h; exact absurd h (by simp)
    | true =>
      refine Or.inl ⟨rfl, ?_⟩
      rw [ha] at hw
      cases hb : b.isWildcard with
      | false => rfl
      | true => exact absurd hw (by simp [hb])

/-- C8: `sortCards` returns a permutation of its (unmutated — the embedding is
a pure function over an unchanged input list) input in which every wildcard
precedes every non-wildcard, dynamic values never increase within each group,
and equal values are tied off by non-decreasing fixed suit priority
(Spades 0 < Hearts 1 < Clubs 2 < Diamonds 3). -/
theorem claim8_sortHand_order (cards : List Card) (lr : Rank) :
    (sortCards cards lr).Perm cards ∧ (sortCards cards lr).Pairwise (sortKeyRel lr) := by
  constructor
  · exact List.mergeSort_perm cards _
  · exact (List.sorted_mergeSort (fun a b c => sortCmpLe_trans lr a b c)
      (fun a b => sortCmpLe_total lr a b) cards).imp (fun h => sortCmpLe_imp_rel h)

/-- C9: `sortCards` is idempotent: sorting a sorted hand changes nothing
(stability of the merge sort plus sortedness of its output). -/
theorem claim9_sortHand_idempotent (cards : List Card) (lr : Rank) :
    sortCards (sortCards cards lr) lr = sortCards cards lr := by
  unfold sortCards
  exact List.mergeSort_of_sorted (List.sorted_mergeSort
    (fun a b c => sortCmpLe_trans lr a b c) (fun a b => sortCmpLe_total lr a b) cards)

/-! ## Shape lemmas for the classifier blocks -/

theorem tryTripleWithPair_shape (nw : List Card) (wc : Nat) (lr : Rank) :
    tryTripleWithPair nw wc lr = INVALID
    ∨ ∃ v, tryTripleWithPair nw wc lr = ⟨PlayTypeName.TripleWithPair, v, 5, true⟩ := by
  unfold tryTripleWithPair
  by_cases h : (valueKeys nw lr).any (fun v => decide (16 ≤ v)) = true
  · rw [if_pos h]
    exact Or.inl rfl
  · rw [if_neg h]
    rcases hf : (valueKeys nw lr).find? (twpFeasible (valueKeys nw lr) (countVal nw lr) wc)
      with _ | tv
    · exact Or.inl rfl
    · exact Or.inr ⟨tv, rfl⟩

theorem checkStraightLike_flush_imp {nw : List Card} {wc n : Nat} {lr : Rank}
    (h : (checkStraightLike nw wc n lr true).ok = true) :
    (checkStraightLike nw wc n lr false).ok = true := by
  unfold checkStraightLike at h ⊢
  rw [if_neg (by simp)]
  by_cases hs : 1 < ((nw.map (fun c => c.suit)).dedup).length
  · rw [if_pos ⟨rfl, hs⟩] at h
    exact absurd h (by simp)
  · rw [if_neg (by simp [hs])] at h
    exact h

theorem classifyFive_shape (cards nw : List Card) (wc : Nat) (lr : Rank) :
    classifyFive cards nw wc lr = INVALID
    ∨ ((classifyFive cards nw wc lr).isValid = true
        ∧ (classifyFive cards nw wc lr).type ≠ PlayTypeName.StraightFlush) := by
  unfold classifyFive
  by_cases hs : (checkStraightLike nw wc 5 lr false).ok = true
  · rw [if_pos hs]
    exact Or.inr ⟨rfl, by simp⟩
  · rw [if_neg hs]
    by_cases hsf : (checkStraightLike nw wc 5 lr true).ok = true
    · exact absurd (checkStraightLike_flush_imp hsf) hs
    · rw [if_neg hsf]
      by_cases hj : ¬ cards.any (fun c => decide (c.suit = Suit.Joker ∧ c.isWildcard = false)) = true
      · rw [if_pos hj]
        rcases tryTripleWithPair_shape nw wc lr with h | ⟨v, h⟩
        · rw [h]
          exact Or.inl (by simp [INVALID])
        · rw [h]
          exact Or.inr ⟨by simp, by simp⟩
      · rw [if_neg hj]
        exact Or.inl rfl

theorem classifySix_shape (nw : List Card) (wc : Nat) (lr : Rank) :
    classifySix nw wc lr = INVALID
    ∨ ((classifySix nw wc lr).isValid = true
        ∧ (classifySix nw wc lr).type ≠ PlayTypeName.StraightFlush) := by
  unfold classifySix
  by_cases hp : (checkConsecutiveGroups nw wc 2 3 lr).ok = true
  · rw [if_pos hp]
    exact Or.inr ⟨rfl, by simp⟩
  · rw [if_neg hp]
    by_cases ht : (checkConsecutiveGroups nw wc 3 2 lr).ok = true
    · rw [if_pos ht]
      exact Or.inr ⟨rfl, by simp⟩
    · rw [if_neg ht]
      by_cases hb : (valueKeys nw lr).length ≤ 1
          ∧ nw.all (fun c => decide (c.suit ≠ Suit.Joker)) = true
      · rw [if_pos hb]
        by_cases hv : 0 < (valueKeys nw lr).getD 0 0
        · rw [if_pos hv]
          exact Or.inr ⟨rfl, by simp⟩
        · rw [if_neg hv]
          exact Or.inl rfl
      · rw [if_neg hb]
        exact Or.inl rfl

theorem classifyTwo_shape (cards nw : List Card) (wc : Nat) (lr : Rank) :
    classifyTwo cards nw wc lr = INVALID
    ∨ ((classifyTwo cards nw wc lr).isValid = true
        ∧ (classifyTwo cards nw wc lr).type = PlayTypeName.Pair) := by
  unfold classifyTwo
  split_ifs <;> first | exact Or.inl rfl | exact Or.inr ⟨rfl, rfl⟩

theorem classifyThree_shape (cards nw : List Card) (wc : Nat) (lr : Rank) :
    classifyThree cards nw wc lr = INVALID
    ∨ ((classifyThree cards nw wc lr).isValid = true
        ∧ (classifyThree cards nw wc lr).type = PlayTypeName.Triple) := by
  simp only [classifyThree]
  split_ifs <;> first | exact Or.inl rfl | exact Or.inr ⟨rfl, rfl⟩

theorem classifySevenPlus_shape (n : Nat) (nw : List Card) (wc : Nat) (lr : Rank) :
    classifySevenPlus n nw wc lr = INVALID
    ∨ ((classifySevenPlus n nw wc lr).isValid = true
        ∧ (classifySevenPlus n nw wc lr).type = PlayTypeName.Straight) := by
  simp only [classifySevenPlus]
  split_ifs <;> first | exact Or.inl rfl | exact Or.inr ⟨rfl, rfl⟩

theorem classifyBombBlock_shape {n : Nat} {nw : List Card} {wc : Nat} {lr : Rank}
    {r : PatternResult} (h : classifyBombBlock n nw wc lr = some r) :
    r.isValid = true ∧ r.type = PlayTypeName.Bomb := by
  unfold classifyBombBlock at h
  by_cases h4 : 4 ≤ n
  · rw [if_pos h4] at h
    by_cases hg : (valueKeys nw lr).length ≤ 1
        ∧ ¬ nw.any (fun c => decide (c.suit = Suit.Joker)) = true
    · rw [if_pos hg] at h
      rcases hk : valueKeys nw lr with _ | ⟨bv, rest⟩ <;> rw [hk] at h
      · exact absurd h (by simp)
      · have h' : (if countVal nw lr bv + wc = n then
            some (⟨PlayTypeName.Bomb, bv, n, true⟩ : PatternResult) else none) = some r := h
        by_cases hc : countVal nw lr bv + wc = n
        · rw [if_pos hc] at h'
          cases h'
          exact ⟨rfl, rfl⟩
        · rw [if_neg hc] at h'
          exact absurd h' (by simp)
    · rw [if_neg hg] at h
      exact absurd h (by simp)
  · rw [if_neg h4] at h
    exact absurd h (by simp)

theorem identifyPattern_shape (cards : List Card) (lr : Rank) :
    identifyPattern cards lr = INVALID
    ∨ ((identifyPattern cards lr).isValid = true
        ∧ (identifyPattern cards lr).type ≠ PlayTypeName.StraightFlush) := by
  unfold identifyPattern
  by_cases h0 : cards.length = 0
  · rw [if_pos h0]
    exact Or.inl rfl
  · rw [if_neg h0]
    by_cases hk : cards.length = 4
        ∧ cards.countP (fun c => decide (c.rank = Rank.Big)) = 2
        ∧ cards.countP (fun c => decide (c.rank = Rank.Small)) = 2
    · rw [if_pos hk]
      exact Or.inr ⟨rfl, by simp⟩
    · rw [if_neg hk]
      split
      next r hb =>
        rcases classifyBombBlock_shape hb with ⟨hv, ht⟩
        exact Or.inr ⟨hv, by rw [ht]; decide⟩
      next hb =>
        by_cases h1 : cards.length = 1
        · rw [if_pos h1]
          exact Or.inr ⟨rfl, by simp⟩
        · rw [if_neg h1]
          by_cases hj : ((nonWildsOf cards).all (fun c => decide (c.suit = Suit.Joker)) = true
              ∧ (wildsOf cards).length = 0)
              ∧ cards.all (fun c => decide (c.suit = Suit.Joker)) = true
          · rw [if_pos hj]
            exact Or.inl rfl
          · rw [if_neg hj]
            by_cases h2 : cards.length = 2
            · rw [if_pos h2]
              rcases classifyTwo_shape cards (nonWildsOf cards) (wildsOf cards).length lr
                with h | ⟨hv, ht⟩
              · exact Or.inl h
              · exact Or.inr ⟨hv, by rw [ht]; decide⟩
            · rw [if_neg h2]
              by_cases h3 : cards.length = 3
              · rw [if_pos h3]
                rcases classifyThree_shape cards (nonWildsOf cards) (wildsOf cards).length lr
                  with h | ⟨hv, ht⟩
                · exact Or.inl h
                · exact Or.inr ⟨hv, by rw [ht]; decide⟩
              · rw [if_neg h3]
                by_cases h5 : cards.length = 5
                · rw [if_pos h5]
                  exact classifyFive_shape cards (nonWildsOf cards) (wildsOf cards).length lr
                · rw [if_neg h5]
                  by_cases h6 : cards.length = 6
                  · rw [if_pos h6]
                    exact classifySix_shape (nonWildsOf cards) (wildsOf cards).length lr
                  · rw [if_neg h6]
                    by_cases h7 : 7 ≤ cards.length
                    · rw [if_pos h7]
                      rcases classifySevenPlus_shape cards.length (nonWildsOf cards)
                        (wildsOf cards).length lr with h | ⟨hv, ht⟩
                      · exact Or.inl h
                      · exact Or.inr ⟨hv, by rw [ht]; decide⟩
                    · rw [if_neg h7]
                      exact Or.inl rfl

/-! ## Claim C10: `StraightFlush` is unreachable -/

/-- C10: the classifier never returns a `StraightFlush` result: the only
producing branch (the 5-card block) first runs the plain straight check, and
the flush check is that same check strengthened by a same-suit requirement, so
whenever it succeeds the plain check already succeeded. -/
theorem claim10_straightflush_unreachable (cards : List Card) (lr : Rank) :
    (identifyPattern cards lr).type ≠ PlayTypeName.StraightFlush := by
  rcases identifyPattern_shape cards lr with h | ⟨-, h⟩
  · rw [h]
    decide
  · exact h

/-! ## Claim C7: the Invalid fallback -/

/-- C7 counterexample: the unrecognizable 2-card hand {spade 5, spade 7} is
classified invalid, but the fallback records `length = 0`, not the input
cardinality 2 as the claim states. -/
theorem claim7_counterexample_length_zero :
    identifyPattern [⟨Suit.Spades, Rank.r5, false, none⟩,
        ⟨Suit.Spades, Rank.r7, false, none⟩] Rank.r2
      = ⟨PlayTypeName.Invalid, 0, 0, false⟩
    ∧ ([⟨Suit.Spades, Rank.r5, false, none⟩,
        ⟨Suit.Spades, Rank.r7, false, none⟩] : List Card).length = 2 := by
  constructor
  · decide
  · rfl

/-- C7 as amended: for every hand matching no legal shape the classifier
raises nothing (it is a total function) and returns exactly the fallback
`{Invalid, primaryValue 0, length 0, isValid false}` — the recorded length is
the constant 0, not the input cardinality. -/
theorem claim7_amended_invalid_fallback (cards : List Card) (lr : Rank)
    (_hne : cards ≠ []) (hinv : (identifyPattern cards lr).isValid = false) :
    identifyPattern cards lr = ⟨PlayTypeName.Invalid, 0, 0, false⟩ := by
  rcases identifyPattern_shape cards lr with h | ⟨hv, -⟩
  · exact h
  · rw [hv] at hinv
    cases hinv

/-- Closed instantiation of C7 (amended) at the unrecognizable hand
{spade 3, heart 9}. -/
theorem claim7_amended_invalid_fallback_witness :
    identifyPattern [⟨Suit.Spades, Rank.r3, false, none⟩,
        ⟨Suit.Hearts, Rank.r9, false, none⟩] Rank.r2
      = ⟨PlayTypeName.Invalid, 0, 0, false⟩ :=
  claim7_amended_invalid_fallback _ _ (by decide) (by decide)

/-! ## Claim C5: permutation invariance of the classifier -/

/-- C5 counterexample: the same five cards — pairs of 7s and 8s plus the
wildcard at level rank 2 — classify as TripleWithPair with primaryValue 7 or 8
depending solely on the input order, because `tryTripleWithPair` scans triple
candidates in first-occurrence order; so `classify` is not fully
permutation-invariant. -/
theorem claim5_counterexample_order_dependent :
    ([⟨Suit.Spades, Rank.r7, false, none⟩, ⟨Suit.Hearts, Rank.r7, false, none⟩,
      ⟨Suit.Spades, Rank.r8, false, none⟩, ⟨Suit.Hearts, Rank.r8, false, none⟩,
      ⟨Suit.Hearts, Rank.r2, true, none⟩] : List Card).Perm
      [⟨Suit.Spades, Rank.r8, false, none⟩, ⟨Suit.Hearts, Rank.r8, false, none⟩,
       ⟨Suit.Spades, Rank.r7, false, none⟩, ⟨Suit.Hearts, Rank.r7, false, none⟩,
       ⟨Suit.Hearts, Rank.r2, true, none⟩]
    ∧ identifyPattern [⟨Suit.Spades, Rank.r7, false, none⟩, ⟨Suit.Hearts, Rank.r7, false, none⟩,
        ⟨Suit.Spades, Rank.r8, false, none⟩, ⟨Suit.Hearts, Rank.r8, false, none⟩,
        ⟨Suit.Hearts, Rank.r2, true, none⟩] Rank.r2
      = ⟨PlayTypeName.TripleWithPair, 7, 5, true⟩
    ∧ identifyPattern [⟨Suit.Spades, Rank.r8, false, none⟩, ⟨Suit.Hearts, Rank.r8, false, none⟩,
        ⟨Suit.Spades, Rank.r7, false, none⟩, ⟨Suit.Hearts, Rank.r7, false, none⟩,
        ⟨Suit.Hearts, Rank.r2, true, none⟩] Rank.r2
      = ⟨PlayTypeName.TripleWithPair, 8, 5, true⟩ := by
  refine ⟨by decide, by decide, by decide⟩

theorem countVal_congr {l l' : List Card} (lr : Rank) (h : l.Perm l') :
    countVal l lr = countVal l' lr := by
  funext v
  exact h.countP_eq _

theorem valueKeys_perm {l l' : List Card} (lr : Rank) (h : l.Perm l') :
    (valueKeys l lr).Perm (valueKeys l' lr) :=
  keysInOrder_perm (h.map _)

theorem mem_valueKeys_iff {l l' : List Card} (lr : Rank) (h : l.Perm l') (a : Nat) :
    a ∈ valueKeys l lr ↔ a ∈ valueKeys l' lr :=
  (valueKeys_perm lr h).mem_iff

theorem straightGaps_congr {uv uv' : List Nat} (hm : ∀ a, a ∈ uv ↔ a ∈ uv')
    (lo n : Nat) : straightGaps uv lo n = straightGaps uv' lo n := by
  unfold straightGaps
  refine List.countP_congr ?_
  intro sv hsv
  simp only [decide_eq_true_eq]
  exact not_congr (hm _)

theorem length_insertAsc (v : Nat) (l : List Nat) :
    (insertAsc v l).length = l.length + 1 := by
  induction l with
  | nil => rfl
  | cons w rest ih =>
    rw [insertAsc]
    split_ifs
    · rfl
    · simp only [List.length_cons, ih]

theorem mem_insertAsc (v a : Nat) (l : List Nat) :
    a ∈ insertAsc v l ↔ a = v ∨ a ∈ l := by
  induction l with
  | nil => simp [insertAsc]
  | cons w rest ih =>
    rw [insertAsc]
    split_ifs
    · simp
    · simp only [List.mem_cons, ih]
      tauto

theorem length_sortAsc (l : List Nat) : (sortAsc l).length = l.length := by
  induction l with
  | nil => rfl
  | cons v rest ih =>
    show (insertAsc v (sortAsc rest)).length = rest.length + 1
    rw [length_insertAsc, ih]

theorem mem_sortAsc (a : Nat) (l : List Nat) : a ∈ sortAsc l ↔ a ∈ l := by
  induction l with
  | nil => simp [sortAsc]
  | cons v rest ih =>
    show a ∈ insertAsc v (sortAsc rest) ↔ _
    rw [mem_insertAsc, ih]
    simp

theorem checkStraightLike_congr {nw nw' : List Card} (wc n : Nat) (lr : Rank)
    (flag : Bool) (h : nw.Perm nw') :
    checkStraightLike nw wc n lr flag = checkStraightLike nw' wc n lr flag := by
  have hs : ((nw.map (fun c => c.suit)).dedup).length
      = ((nw'.map (fun c => c.suit)).dedup).length :=
    ((h.map (fun c => c.suit)).dedup).length_eq
  have he : (nw.filter (fun c => decide (getCardValue c lr ≤ 14))).Perm
      (nw'.filter (fun c => decide (getCardValue c lr ≤ 14))) :=
    h.filter _
  have hlen := he.length_eq
  have hkio := keysInOrder_perm (he.map (fun c => rankToInt c.rank))
  have huvlen : (sortAsc (keysInOrder ((nw.filter (fun c => decide (getCardValue c lr ≤ 14))).map
        (fun c => rankToInt c.rank)))).length
      = (sortAsc (keysInOrder ((nw'.filter (fun c => decide (getCardValue c lr ≤ 14))).map
        (fun c => rankToInt c.rank)))).length := by
    rw [length_sortAsc, length_sortAsc]
    exact hkio.length_eq
  have huvmem : ∀ a, (a ∈ sortAsc (keysInOrder ((nw.filter
        (fun c => decide (getCardValue c lr ≤ 14))).map (fun c => rankToInt c.rank))))
      ↔ (a ∈ sortAsc (keysInOrder ((nw'.filter
        (fun c => decide (getCardValue c lr ≤ 14))).map (fun c => rankToInt c.rank)))) := by
    intro a
    rw [mem_sortAsc, mem_sortAsc]
    exact hkio.mem_iff
  have hpred : (fun lo => decide (straightGaps (sortAsc (keysInOrder ((nw.filter
        (fun c => decide (getCardValue c lr ≤ 14))).map (fun c => rankToInt c.rank)))) lo n ≤ wc))
      = (fun lo => decide (straightGaps (sortAsc (keysInOrder ((nw'.filter
        (fun c => decide (getCardValue c lr ≤ 14))).map (fun c => rankToInt c.rank)))) lo n ≤ wc)) := by
    funext lo
    rw [straightGaps_congr huvmem]
  simp only [checkStraightLike]
  rw [hs, hlen, huvlen, hpred]

theorem groupsNeedOk_congr {nw nw' : List Card} (lr : Rank)
    (wc gc gs : Nat) (h : nw.Perm nw') :
    groupsNeedOk nw lr wc gc gs = groupsNeedOk nw' lr wc gc gs := by
  funext lo
  unfold groupsNeedOk
  rw [countVal_congr lr h]

theorem checkConsecutiveGroups_congr {nw nw' : List Card} (wc gc gs : Nat) (lr : Rank)
    (h : nw.Perm nw') :
    checkConsecutiveGroups nw wc gc gs lr = checkConsecutiveGroups nw' wc gc gs lr := by
  have hlen := h.length_eq
  have hany1 : (valueKeys nw lr).any (fun v => decide (14 < v))
      = (valueKeys nw' lr).any (fun v => decide (14 < v)) :=
    bool_any_congr_perm _ (valueKeys_perm lr h)
  have hany2 : (valueKeys nw lr).any (fun v => decide (gs < countVal nw lr v))
      = (valueKeys nw' lr).any (fun v => decide (gs < countVal nw' lr v)) := by
    rw [countVal_congr lr h]
    exact bool_any_congr_perm _ (valueKeys_perm lr h)
  simp only [checkConsecutiveGroups]
  rw [hlen, hany1, hany2, groupsNeedOk_congr lr wc gc gs h]

theorem list_eq_of_perm_of_len_le_one {α : Type} {l l' : List α}
    (hp : l.Perm l') (h1 : l'.length ≤ 1) : l = l' := by
  rcases l' with _ | ⟨x, _ | ⟨y, t⟩⟩
  · exact hp.eq_nil
  · exact (hp.symm.singleton_eq).symm
  · simp at h1

theorem twpPairOk_congr {pc pc' : List Nat} (cnt : Nat → Nat) (rw : Int)
    (hp : pc.Perm pc') : twpPairOk pc cnt rw = twpPairOk pc' cnt rw := by
  funext pv
  unfold twpPairOk
  have hsum : (((pc.filter (fun v => decide (v ≠ pv))).map cnt)).sum
      = (((pc'.filter (fun v => decide (v ≠ pv))).map cnt)).sum :=
    ((hp.filter _).map cnt).sum_eq
  rw [hsum]

theorem twpFeasible_congr {keys keys' : List Nat} (cnt : Nat → Nat) (wc : Nat)
    (hp : keys.Perm keys') (tv : Nat) :
    twpFeasible keys cnt wc tv = twpFeasible keys' cnt wc tv := by
  have hpc : (keys.filter (fun v => decide (v ≠ tv))).Perm
      (keys'.filter (fun v => decide (v ≠ tv))) := hp.filter _
  have hempty : (keys.filter (fun v => decide (v ≠ tv))).isEmpty
      = (keys'.filter (fun v => decide (v ≠ tv))).isEmpty := by
    rw [Bool.eq_iff_iff, List.isEmpty_iff, List.isEmpty_iff]
    constructor
    · intro hh
      rw [hh] at hpc
      exact hpc.symm.eq_nil
    · intro hh
      rw [hh] at hpc
      exact hpc.eq_nil
  simp only [twpFeasible]
  by_cases hg : (3 - (cnt tv : Int)) < 0 ∨ (wc : Int) < 3 - (cnt tv : Int)
  · rw [if_pos hg, if_pos hg]
  · rw [if_neg hg, if_neg hg]
    rw [hempty, twpPairOk_congr cnt ((wc : Int) - (3 - (cnt tv : Int))) hpc]
    by_cases he : (keys'.filter (fun v => decide (v ≠ tv))).isEmpty = true
    · rw [if_pos he, if_pos he]
    · rw [if_neg he, if_neg he]
      exact bool_any_congr_perm _ hpc

theorem tryTripleWithPair_isValid_congr {nw nw' : List Card} (wc : Nat) (lr : Rank)
    (h : nw.Perm nw') :
    (tryTripleWithPair nw wc lr).isValid = (tryTripleWithPair nw' wc lr).isValid := by
  have hkp : (valueKeys nw lr).Perm (valueKeys nw' lr) := valueKeys_perm lr h
  have hcnt : countVal nw lr = countVal nw' lr := countVal_congr lr h
  have hg : (valueKeys nw lr).any (fun v => decide (16 ≤ v))
      = (valueKeys nw' lr).any (fun v => decide (16 ≤ v)) :=
    bool_any_congr_perm _ hkp
  have hpred : twpFeasible (valueKeys nw lr) (countVal nw' lr) wc
      = twpFeasible (valueKeys nw' lr) (countVal nw' lr) wc :=
    funext (twpFeasible_congr (countVal nw' lr) wc hkp)
  simp only [tryTripleWithPair]
  rw [hcnt, hg, hpred]
  by_cases hga : ((valueKeys nw' lr).any fun v => decide (16 ≤ v)) = true
  · rw [if_pos hga, if_pos hga]
  · rw [if_neg hga, if_neg hga]
    rcases hf1 : (valueKeys nw lr).find?
        (twpFeasible (valueKeys nw' lr) (countVal nw' lr) wc) with _ | tv
      <;> rcases hf2 : (valueKeys nw' lr).find?
        (twpFeasible (valueKeys nw' lr) (countVal nw' lr) wc) with _ | tv'
    · rfl
    · exfalso
      rcases List.find?_isSome.mp (by rw [hf2]; rfl) with ⟨x, hx, hpx⟩
      have hx' : x ∈ valueKeys nw lr := hkp.mem_iff.mpr hx
      have := List.find?_eq_none.mp hf1 x hx'
      exact this hpx
    · exfalso
      rcases List.find?_isSome.mp (by rw [hf1]; rfl) with ⟨x, hx, hpx⟩
      have hx' : x ∈ valueKeys nw' lr := hkp.mem_iff.mp hx
      have := List.find?_eq_none.mp hf2 x hx'
      exact this hpx
    · rfl

theorem classifyFive_congr {cards cards' nw nw' : List Card} (wc : Nat) (lr : Rank)
    (hc : cards.Perm cards') (hnw : nw.Perm nw') :
    (classifyFive cards nw wc lr).type = (classifyFive cards' nw' wc lr).type
    ∧ (classifyFive cards nw wc lr).length = (classifyFive cards' nw' wc lr).length
    ∧ (classifyFive cards nw wc lr).isValid = (classifyFive cards' nw' wc lr).isValid := by
  have hjok : cards.any (fun c => decide (c.suit = Suit.Joker ∧ c.isWildcard = false))
      = cards'.any (fun c => decide (c.suit = Suit.Joker ∧ c.isWildcard = false)) :=
    bool_any_congr_perm _ hc
  simp only [classifyFive]
  rw [checkStraightLike_congr wc 5 lr false hnw, checkStraightLike_congr wc 5 lr true hnw, hjok]
  by_cases h1 : (checkStraightLike nw' wc 5 lr false).ok = true
  · rw [if_pos h1, if_pos h1]
    exact ⟨rfl, rfl, rfl⟩
  · rw [if_neg h1, if_neg h1]
    by_cases h2 : (checkStraightLike nw' wc 5 lr true).ok = true
    · rw [if_pos h2, if_pos h2]
      exact ⟨rfl, rfl, rfl⟩
    · rw [if_neg h2, if_neg h2]
      by_cases h3 : ¬ (cards'.any fun c => decide (c.suit = Suit.Joker ∧ c.isWildcard = false)) = true
      · rw [if_pos h3, if_pos h3]
        have hval := tryTripleWithPair_isValid_congr wc lr hnw
        rcases tryTripleWithPair_shape nw wc lr with hI | ⟨v, hV⟩ <;>
          rcases tryTripleWithPair_shape nw' wc lr with hI' | ⟨v', hV'⟩
        · rw [hI, hI']
          exact ⟨rfl, rfl, rfl⟩
        · rw [hI, hV'] at hval
          exact absurd hval (by simp [INVALID])
        · rw [hI', hV] at hval
          exact absurd hval (by simp [INVALID])
        · rw [hV, hV']
          exact ⟨rfl, rfl, rfl⟩
      · rw [if_neg h3, if_neg h3]
        exact ⟨rfl, rfl, rfl⟩

/-- Well-formedness of a physical card: the joker ranks appear exactly on the
joker suit (each of the 108 real cards satisfies this). -/
def WFCard (c : Card) : Prop :=
  (c.rank = Rank.Small ∨ c.rank = Rank.Big) ↔ c.suit = Suit.Joker

theorem value_ge_16_iff_joker {c : Card} (lr : Rank) (hwf : WFCard c) :
    16 ≤ getCardValue c lr ↔ c.suit = Suit.Joker := by
  unfold getCardValue
  by_cases hj : c.suit = Suit.Joker
  · rw [if_pos hj]
    split_ifs <;> simp [hj]
  · rw [if_neg hj]
    constructor
    · intro h16
      by_cases hlv : c.rank = lr
      · rw [if_pos hlv] at h16
        omega
      · rw [if_neg hlv] at h16
        have hsb : c.rank = Rank.Small ∨ c.rank = Rank.Big := by
          cases hr : c.rank <;> rw [hr] at h16 <;>
            first
              | (exact Or.inl rfl)
              | (exact Or.inr rfl)
              | (exfalso; simp [BASE_RANK_VALUE] at h16)
        exact absurd (hwf.mp hsb) hj
    · intro hx
      exact absurd hx hj

theorem perm_pair_cases {α : Type} [DecidableEq α] {a b : α} {l : List α}
    (h : l.Perm [a, b]) : l = [a, b] ∨ l = [b, a] := by
  rcases l with _ | ⟨x, _ | ⟨y, _ | ⟨z, t⟩⟩⟩
  · exact absurd h.length_eq (by simp)
  · exact absurd h.length_eq (by simp)
  · have hx : x ∈ [a, b] := h.mem_iff.mp (by simp)
    simp only [List.mem_cons, List.not_mem_nil, or_false] at hx
    rcases hx with hxa | hxb
    · subst hxa
      left
      have h2 := h.cons_inv
      rw [(h2.symm.singleton_eq).symm]
    · subst hxb
      right
      have he := h.erase x
      rw [List.erase_cons_head] at he
      have hr : ([a, x].erase x) = [a] := by
        by_cases hax : a = x
        · subst hax
          rw [List.erase_cons_head]
        · simp [List.erase_cons, hax]
      rw [hr] at he
      rw [(he.symm.singleton_eq).symm]
  · exact absurd h.length_eq (by simp)

theorem classifyTwo_pair_branch_congr {c0 c1 : Card} (lr : Rank)
    (hwf0 : WFCard c0) (hwf1 : WFCard c1)
    (hnotall : ¬ (c0.suit = Suit.Joker ∧ c1.suit = Suit.Joker)) :
    (if getCardValue c0 lr = getCardValue c1 lr ∧ c0.suit ≠ Suit.Joker then
      (⟨PlayTypeName.Pair, getCardValue c0 lr, 2, true⟩ : PatternResult) else INVALID)
    = (if getCardValue c1 lr = getCardValue c0 lr ∧ c1.suit ≠ Suit.Joker then
      (⟨PlayTypeName.Pair, getCardValue c1 lr, 2, true⟩ : PatternResult) else INVALID) := by
  by_cases hv : getCardValue c0 lr = getCardValue c1 lr
  · have hjj : c0.suit = Suit.Joker ↔ c1.suit = Suit.Joker := by
      rw [← value_ge_16_iff_joker lr hwf0, ← value_ge_16_iff_joker lr hwf1, hv]
    have hnj0 : c0.suit ≠ Suit.Joker := fun hx => hnotall ⟨hx, hjj.mp hx⟩
    have hnj1 : c1.suit ≠ Suit.Joker := fun hx => hnotall ⟨hjj.mpr hx, hx⟩
    rw [if_pos ⟨hv, hnj0⟩, if_pos ⟨hv.symm, hnj1⟩, hv]
  · rw [if_neg (fun hx => hv hx.1), if_neg (fun hx => hv hx.1.symm)]

theorem classifyTwo_congr {cards cards' nw nw' : List Card} (wc : Nat) (lr : Rank)
    (hwf : ∀ c ∈ cards, WFCard c) (hlen2 : cards.length = 2)
    (hc : cards.Perm cards') (hnw : nw.Perm nw') :
    classifyTwo cards nw wc lr = classifyTwo cards' nw' wc lr := by
  have hall : (cards.all fun c => decide (c.suit = Suit.Joker))
      = (cards'.all fun c => decide (c.suit = Suit.Joker)) := bool_all_congr_perm _ hc
  have hnwlen := hnw.length_eq
  simp only [classifyTwo]
  rw [hall]
  by_cases h1 : (cards'.all fun c => decide (c.suit = Suit.Joker)) = true
  · rw [if_pos h1, if_pos h1]
  · rw [if_neg h1, if_neg h1]
    by_cases hg1 : wc = 1 ∧ nw'.length = 1 ∧ (nw'.getD 0 default).suit ≠ Suit.Joker
    · have hnweq : nw = nw' := list_eq_of_perm_of_len_le_one hnw (by omega)
      rw [hnweq, if_pos hg1, if_pos hg1]
    · have hg1l : ¬ (wc = 1 ∧ nw.length = 1 ∧ (nw.getD 0 default).suit ≠ Suit.Joker) := by
        intro hx
        have hnweq : nw = nw' := list_eq_of_perm_of_len_le_one hnw (by omega)
        rw [hnweq] at hx
        exact hg1 hx
      rw [if_neg hg1l, if_neg hg1]
      by_cases h0 : wc = 0
      · rw [if_pos h0, if_pos h0]
        rcases cards with _ | ⟨c0, _ | ⟨c1, _ | ⟨c2, t⟩⟩⟩
        · simp at hlen2
        · simp at hlen2
        · rcases perm_pair_cases hc.symm with heq | heq
          · rw [heq]
          · rw [heq]
            have hnotall : ¬ (c0.suit = Suit.Joker ∧ c1.suit = Suit.Joker) := by
              rintro ⟨ha, hb⟩
              refine h1 ?_
              rw [heq]
              simp [ha, hb]
            simp only [List.getD_cons_zero, List.getD_cons_succ]
            exact classifyTwo_pair_branch_congr lr (hwf c0 (by simp)) (hwf c1 (by simp)) hnotall
        · simp at hlen2
      · rw [if_neg h0, if_neg h0]

theorem classifyThree_congr {cards cards' nw nw' : List Card} (wc : Nat) (lr : Rank)
    (hc : cards.Perm cards') (hnw : nw.Perm nw') :
    classifyThree cards nw wc lr = classifyThree cards' nw' wc lr := by
  have hany : (cards.any fun c => decide (c.suit = Suit.Joker))
      = (cards'.any fun c => decide (c.suit = Suit.Joker)) := bool_any_congr_perm _ hc
  have hkeys := valueKeys_perm lr hnw
  have hklen := hkeys.length_eq
  have hlen := hnw.length_eq
  simp only [classifyThree]
  rw [hany, hklen, hlen]
  by_cases hj : (cards'.any fun c => decide (c.suit = Suit.Joker)) = true
  · rw [if_pos hj, if_pos hj]
  · rw [if_neg hj, if_neg hj]
    by_cases hk1 : (valueKeys nw' lr).length = 1
    · have hkeq : valueKeys nw lr = valueKeys nw' lr :=
        list_eq_of_perm_of_len_le_one hkeys (by omega)
      rw [hkeq]
    · have hng1 : ¬ ((valueKeys nw' lr).length = 1 ∧ nw'.length + wc = 3) :=
        fun hx => hk1 hx.1
      have hng2 : ¬ (0 < wc ∧ (valueKeys nw' lr).length = 1) :=
        fun hx => hk1 hx.2
      rw [if_neg hng1, if_neg hng1, if_neg hng2, if_neg hng2]

theorem classifySix_congr {nw nw' : List Card} (wc : Nat) (lr : Rank)
    (hnw : nw.Perm nw') :
    classifySix nw wc lr = classifySix nw' wc lr := by
  have hkeys := valueKeys_perm lr hnw
  have hklen := hkeys.length_eq
  have hall : (nw.all fun c => decide (c.suit ≠ Suit.Joker))
      = (nw'.all fun c => decide (c.suit ≠ Suit.Joker)) := bool_all_congr_perm _ hnw
  simp only [classifySix]
  rw [checkConsecutiveGroups_congr wc 2 3 lr hnw, checkConsecutiveGroups_congr wc 3 2 lr hnw,
    hklen, hall]
  by_cases hp : (checkConsecutiveGroups nw' wc 2 3 lr).ok = true
  · rw [if_pos hp, if_pos hp]
  · rw [if_neg hp, if_neg hp]
    by_cases ht : (checkConsecutiveGroups nw' wc 3 2 lr).ok = true
    · rw [if_pos ht, if_pos ht]
    · rw [if_neg ht, if_neg ht]
      by_cases hk1 : (valueKeys nw' lr).length ≤ 1
      · have hkeq : valueKeys nw lr = valueKeys nw' lr :=
          list_eq_of_perm_of_len_le_one hkeys hk1
        rw [hkeq]
      · have hng : ¬ ((valueKeys nw' lr).length ≤ 1
            ∧ (nw'.all fun c => decide (c.suit ≠ Suit.Joker)) = true) := fun hx => hk1 hx.1
        rw [if_neg hng, if_neg hng]

theorem classifyBombBlock_congr {nw nw' : List Card} (n wc : Nat) (lr : Rank)
    (hnw : nw.Perm nw') :
    classifyBombBlock n nw wc lr = classifyBombBlock n nw' wc lr := by
  have hkeys := valueKeys_perm lr hnw
  have hklen := hkeys.length_eq
  have hany : (nw.any fun c => decide (c.suit = Suit.Joker))
      = (nw'.any fun c => decide (c.suit = Suit.Joker)) := bool_any_congr_perm _ hnw
  have hcnt : countVal nw lr = countVal nw' lr := countVal_congr lr hnw
  simp only [classifyBombBlock]
  rw [hklen, hany, hcnt]
  by_cases hk1 : (valueKeys nw' lr).length ≤ 1
  · have hkeq : valueKeys nw lr = valueKeys nw' lr :=
      list_eq_of_perm_of_len_le_one hkeys hk1
    rw [hkeq]
  · have hng : ¬ ((valueKeys nw' lr).length ≤ 1
        ∧ ¬ (nw'.any fun c => decide (c.suit = Suit.Joker)) = true) := fun hx => hk1 hx.1
    rw [if_neg hng, if_neg hng]

theorem classifySevenPlus_congr {nw nw' : List Card} (n wc : Nat) (lr : Rank)
    (hnw : nw.Perm nw') :
    classifySevenPlus n nw wc lr = classifySevenPlus n nw' wc lr := by
  simp only [classifySevenPlus]
  rw [checkStraightLike_congr wc n lr false hnw]

instance (c : Card) : Decidable (WFCard c) := by
  unfold WFCard
  infer_instance

/-- C5 as amended: for hands of well-formed cards (joker ranks exactly on the
joker suit, as in the 108-card universe), the classifier is
permutation-invariant in `type`, `length` and `isValid`; the returned
`primaryValue` may depend on the input order (only the 5-card
TripleWithPair branch picks its triple value by first occurrence). -/
theorem claim5_amended_perm_invariant (cards cards' : List Card) (lr : Rank)
    (hwf : ∀ c ∈ cards, WFCard c) (hp : cards.Perm cards') :
    (identifyPattern cards lr).type = (identifyPattern cards' lr).type
    ∧ (identifyPattern cards lr).length = (identifyPattern cards' lr).length
    ∧ (identifyPattern cards lr).isValid = (identifyPattern cards' lr).isValid := by
  have hlen := hp.length_eq
  have hnw : (nonWildsOf cards).Perm (nonWildsOf cards') := hp.filter _
  have hw : (wildsOf cards).Perm (wildsOf cards') := hp.filter _
  have hwlen := hw.length_eq
  have hcb : cards.countP (fun c => decide (c.rank = Rank.Big))
      = cards'.countP (fun c => decide (c.rank = Rank.Big)) := hp.countP_eq _
  have hcs : cards.countP (fun c => decide (c.rank = Rank.Small))
      = cards'.countP (fun c => decide (c.rank = Rank.Small)) := hp.countP_eq _
  have hallj : (cards.all fun c => decide (c.suit = Suit.Joker))
      = (cards'.all fun c => decide (c.suit = Suit.Joker)) := bool_all_congr_perm _ hp
  have hnwall : ((nonWildsOf cards).all fun c => decide (c.suit = Suit.Joker))
      = ((nonWildsOf cards').all fun c => decide (c.suit = Suit.Joker)) :=
    bool_all_congr_perm _ hnw
  simp only [identifyPattern]
  rw [hlen, hwlen, hcb, hcs, hallj, hnwall,
    classifyBombBlock_congr cards'.length (wildsOf cards').length lr hnw]
  by_cases h0 : cards'.length = 0
  · rw [if_pos h0, if_pos h0]
    exact ⟨rfl, rfl, rfl⟩
  · rw [if_neg h0, if_neg h0]
    by_cases hk : cards'.length = 4
        ∧ cards'.countP (fun c => decide (c.rank = Rank.Big)) = 2
        ∧ cards'.countP (fun c => decide (c.rank = Rank.Small)) = 2
    · rw [if_pos hk, if_pos hk]
      exact ⟨rfl, rfl, rfl⟩
    · rw [if_neg hk, if_neg hk]
      split
      · exact ⟨rfl, rfl, rfl⟩
      · by_cases h1 : cards'.length = 1
        · rw [if_pos h1, if_pos h1]
          have hceq : cards = cards' := list_eq_of_perm_of_len_le_one hp (by omega)
          rw [hceq]
          exact ⟨rfl, rfl, rfl⟩
        · rw [if_neg h1, if_neg h1]
          by_cases hjg : (((nonWildsOf cards').all fun c => decide (c.suit = Suit.Joker)) = true
              ∧ (wildsOf cards').length = 0)
              ∧ (cards'.all fun c => decide (c.suit = Suit.Joker)) = true
          · rw [if_pos hjg, if_pos hjg]
            exact ⟨rfl, rfl, rfl⟩
          · rw [if_neg hjg, if_neg hjg]
            by_cases h2 : cards'.length = 2
            · rw [if_pos h2, if_pos h2,
                classifyTwo_congr (wildsOf cards').length lr hwf (by omega) hp hnw]
              exact ⟨rfl, rfl, rfl⟩
            · rw [if_neg h2, if_neg h2]
              by_cases h3 : cards'.length = 3
              · rw [if_pos h3, if_pos h3,
                  classifyThree_congr (wildsOf cards').length lr hp hnw]
                exact ⟨rfl, rfl, rfl⟩
              · rw [if_neg h3, if_neg h3]
                by_cases h5 : cards'.length = 5
                · rw [if_pos h5, if_pos h5]
                  exact classifyFive_congr (wildsOf cards').length lr hp hnw
                · rw [if_neg h5, if_neg h5]
                  by_cases h6 : cards'.length = 6
                  · rw [if_pos h6, if_pos h6,
                      classifySix_congr (wildsOf cards').length lr hnw]
                    exact ⟨rfl, rfl, rfl⟩
                  · rw [if_neg h6, if_neg h6]
                    by_cases h7 : 7 ≤ cards'.length
                    · rw [if_pos h7, if_pos h7,
                        classifySevenPlus_congr cards'.length (wildsOf cards').length lr hnw]
                      exact ⟨rfl, rfl, rfl⟩
                    · rw [if_neg h7, if_neg h7]
                      exact ⟨rfl, rfl, rfl⟩

/-- Closed instantiation of C5 (amended) at the counterexample pair of hands:
type, length and validity agree across the reordering. -/
theorem claim5_amended_perm_invariant_witness :
    (identifyPattern [⟨Suit.Spades, Rank.r7, false, none⟩, ⟨Suit.Hearts, Rank.r7, false, none⟩,
        ⟨Suit.Spades, Rank.r8, false, none⟩, ⟨Suit.Hearts, Rank.r8, false, none⟩,
        ⟨Suit.Hearts, Rank.r2, true, none⟩] Rank.r2).type
      = (identifyPattern [⟨Suit.Spades, Rank.r8, false, none⟩, ⟨Suit.Hearts, Rank.r8, false, none⟩,
        ⟨Suit.Spades, Rank.r7, false, none⟩, ⟨Suit.Hearts, Rank.r7, false, none⟩,
        ⟨Suit.Hearts, Rank.r2, true, none⟩] Rank.r2).type
    ∧ (identifyPattern [⟨Suit.Spades, Rank.r7, false, none⟩, ⟨Suit.Hearts, Rank.r7, false, none⟩,
        ⟨Suit.Spades, Rank.r8, false, none⟩, ⟨Suit.Hearts, Rank.r8, false, none⟩,
        ⟨Suit.Hearts, Rank.r2, true, none⟩] Rank.r2).length
      = (identifyPattern [⟨Suit.Spades, Rank.r8, false, none⟩, ⟨Suit.Hearts, Rank.r8, false, none⟩,
        ⟨Suit.Spades, Rank.r7, false, none⟩, ⟨Suit.Hearts, Rank.r7, false, none⟩,
        ⟨Suit.Hearts, Rank.r2, true, none⟩] Rank.r2).length
    ∧ (identifyPattern [⟨Suit.Spades, Rank.r7, false, none⟩, ⟨Suit.Hearts, Rank.r7, false, none⟩,
        ⟨Suit.Spades, Rank.r8, false, none⟩, ⟨Suit.Hearts, Rank.r8, false, none⟩,
        ⟨Suit.Hearts, Rank.r2, true, none⟩] Rank.r2).isValid
      = (identifyPattern [⟨Suit.Spades, Rank.r8, false, none⟩, ⟨Suit.Hearts, Rank.r8, false, none⟩,
        ⟨Suit.Spades, Rank.r7, false, none⟩, ⟨Suit.Hearts, Rank.r7, false, none⟩,
        ⟨Suit.Hearts, Rank.r2, true, none⟩] Rank.r2).isValid :=
  claim5_amended_perm_invariant _ _ Rank.r2 (by decide) (by decide)

/-! ## Claim C6: the wildcard substitution enumerator -/

set_option maxRecDepth 4000 in
/-- C6, evaluated at the failing input (code bug): for the wildcard plus
7-7-7-8 at level rank 2 the enumerator returns the empty list, even though
substituting e.g. the diamond 8 for the wildcard slot yields a valid
TripleWithPair — and the selected set itself, played with the wildcard, is a
valid TripleWithPair.  The trial sets built by `enumerateWildcardOptions` only
set `actingAs` and clear `isWildcard`, keeping the wildcard's own Hearts
level-rank identity which is what `identifyPattern` reads, so every trial
classifies identically (here: Invalid, because a demoted level card of value
15 fits no 5-card shape with 7-7-7-8). -/
theorem claim6_substitution_enumerator_bug :
    enumerateWildcardOptions [⟨Suit.Hearts, Rank.r2, true, none⟩,
      ⟨Suit.Spades, Rank.r7, false, none⟩, ⟨Suit.Hearts, Rank.r7, false, none⟩,
      ⟨Suit.Clubs, Rank.r7, false, none⟩, ⟨Suit.Spades, Rank.r8, false, none⟩] Rank.r2 = []
    ∧ identifyPattern [⟨Suit.Diamonds, Rank.r8, false, none⟩,
      ⟨Suit.Spades, Rank.r7, false, none⟩, ⟨Suit.Hearts, Rank.r7, false, none⟩,
      ⟨Suit.Clubs, Rank.r7, false, none⟩, ⟨Suit.Spades, Rank.r8, false, none⟩] Rank.r2
      = ⟨PlayTypeName.TripleWithPair, 7, 5, true⟩
    ∧ identifyPattern [⟨Suit.Hearts, Rank.r2, true, none⟩,
      ⟨Suit.Spades, Rank.r7, false, none⟩, ⟨Suit.Hearts, Rank.r7, false, none⟩,
      ⟨Suit.Clubs, Rank.r7, false, none⟩, ⟨Suit.Spades, Rank.r8, false, none⟩] Rank.r2
      = ⟨PlayTypeName.TripleWithPair, 7, 5, true⟩ := by
  refine ⟨by decide, by decide, by decide⟩

/-! ## Claim C4: straight recognition on 5-card inputs -/

/-- The natural values of one candidate 5-run window: `[lo, lo+4]`, slot 1 of
the A2345 window standing for the Ace (natural value 14). -/
def straightWindow (lo : Nat) : List Nat :=
  (List.range' lo 5).map (fun sv => if lo = 1 ∧ sv = 1 then 14 else sv)

/-- Modelled from the spec's straight rule for 5 cards: the non-wildcard cards
all carry dynamic value at most 14 (no level-rank-elevated card or joker
participates), their natural values are pairwise distinct, and some window
A2345 (`lo = 1`) through 10JQKA (`lo = 10`) contains them all, the remaining
slots being filled by the wildcards (which is automatic: a 5-card hand has
exactly `5 - #nonWilds` wildcards, matching the number of open slots). -/
def straightSpecC4 (cards : List Card) (lr : Rank) : Prop :=
  (∀ c ∈ nonWildsOf cards, getCardValue c lr ≤ 14)
  ∧ ((nonWildsOf cards).map (fun c => rankToInt c.rank)).Nodup
  ∧ ∃ lo ∈ List.range' 1 10, ∀ c ∈ nonWildsOf cards, rankToInt c.rank ∈ straightWindow lo

instance (cards : List Card) (lr : Rank) : Decidable (straightSpecC4 cards lr) := by
  unfold straightSpecC4
  infer_instance

/-- C4 counterexample: the spade 9 plus four wildcards at level rank 2 meets
the claim's straight condition (one natural value, window 5..9 reachable with
the wildcard budget), yet the classifier returns a 5-card Bomb, because the
generic bomb block runs before the 5-card shape block. -/
theorem claim4_counterexample_bomb_preempts :
    identifyPattern [⟨Suit.Spades, Rank.r9, false, none⟩, ⟨Suit.Hearts, Rank.r2, true, none⟩,
        ⟨Suit.Hearts, Rank.r2, true, none⟩, ⟨Suit.Hearts, Rank.r2, true, none⟩,
        ⟨Suit.Hearts, Rank.r2, true, none⟩] Rank.r2
      = ⟨PlayTypeName.Bomb, 9, 5, true⟩
    ∧ straightSpecC4 [⟨Suit.Spades, Rank.r9, false, none⟩, ⟨Suit.Hearts, Rank.r2, true, none⟩,
        ⟨Suit.Hearts, Rank.r2, true, none⟩, ⟨Suit.Hearts, Rank.r2, true, none⟩,
        ⟨Suit.Hearts, Rank.r2, true, none⟩] Rank.r2 := by
  refine ⟨by decide, by decide⟩

theorem count_mem_le (uv W : List Nat) (hW : W.Nodup) :
    W.countP (fun w => decide (w ∈ uv)) ≤ uv.length := by
  rw [List.countP_eq_length_filter]
  refine ((hW.filter _).subperm ?_).length_le
  intro a ha
  have := List.mem_filter.mp ha
  simpa using this.2

theorem subset_of_count_ge {uv W : List Nat} (hW : W.Nodup) (_huv : uv.Nodup)
    (hge : uv.length ≤ W.countP (fun w => decide (w ∈ uv))) : ∀ a ∈ uv, a ∈ W := by
  have hsub : (W.filter (fun w => decide (w ∈ uv))).Subperm uv := by
    refine (hW.filter _).subperm ?_
    intro a ha
    have := List.mem_filter.mp ha
    simpa using this.2
  rw [List.countP_eq_length_filter] at hge
  have hperm := hsub.perm_of_length_le hge
  intro a ha
  have hmem : a ∈ W.filter (fun w => decide (w ∈ uv)) := hperm.mem_iff.mpr ha
  exact (List.mem_filter.mp hmem).1

theorem count_ge_of_subset {uv W : List Nat} (huv : uv.Nodup)
    (hsub : ∀ a ∈ uv, a ∈ W) : uv.length ≤ W.countP (fun w => decide (w ∈ uv)) := by
  rw [List.countP_eq_length_filter]
  refine (huv.subperm ?_).length_le
  intro a ha
  exact List.mem_filter.mpr ⟨hsub a ha, by simpa using ha⟩

theorem countP_mem_add_not_mem (uv W : List Nat) :
    W.countP (fun w => decide (w ∈ uv)) + W.countP (fun w => decide (w ∉ uv)) = W.length := by
  have h := List.length_eq_countP_add_countP (fun w => decide (w ∈ uv)) W
  rw [h]
  congr 1
  refine List.countP_congr ?_
  intro a ha
  simp

theorem straightGaps_eq_window_count (uv : List Nat) (lo : Nat) :
    straightGaps uv lo 5 = (straightWindow lo).countP (fun w => decide (w ∉ uv)) := by
  unfold straightGaps straightWindow
  rw [List.countP_map]
  rfl

theorem nodup_insertAsc {v : Nat} {l : List Nat} (h : l.Nodup) (hv : v ∉ l) :
    (insertAsc v l).Nodup := by
  induction l with
  | nil => simp [insertAsc]
  | cons w rest ih =>
    rw [insertAsc]
    rcases List.nodup_cons.mp h with ⟨hw, hrest⟩
    split_ifs
    · exact List.nodup_cons.mpr ⟨hv, h⟩
    · refine List.nodup_cons.mpr
        ⟨?_, ih hrest (fun hx => hv (List.mem_cons_of_mem _ hx))⟩
      intro hmem
      rcases (mem_insertAsc v w rest).mp hmem with hwv | hwr
      · exact hv (hwv ▸ List.mem_cons_self _ _)
      · exact hw hwr

theorem nodup_sortAsc {l : List Nat} (h : l.Nodup) : (sortAsc l).Nodup := by
  induction l with
  | nil => simp [sortAsc]
  | cons v rest ih =>
    rcases List.nodup_cons.mp h with ⟨hv, hrest⟩
    show (insertAsc v (sortAsc rest)).Nodup
    exact nodup_insertAsc (ih hrest) (fun hx => hv ((mem_sortAsc v rest).mp hx))

theorem straightWindow_facts :
    ∀ lo ∈ List.range' 1 10, (straightWindow lo).Nodup ∧ (straightWindow lo).length = 5 := by
  decide

theorem gaps_le_iff {uv : List Nat} {wc lo : Nat} (huv : uv.Nodup)
    (hW : (straightWindow lo).Nodup) (hWlen : (straightWindow lo).length = 5)
    (hlen : uv.length + wc = 5) :
    straightGaps uv lo 5 ≤ wc ↔ ∀ a ∈ uv, a ∈ straightWindow lo := by
  rw [straightGaps_eq_window_count]
  have hsum := countP_mem_add_not_mem uv (straightWindow lo)
  rw [hWlen] at hsum
  have hle := count_mem_le uv (straightWindow lo) hW
  constructor
  · intro hg
    refine subset_of_count_ge hW huv ?_
    omega
  · intro hs
    have := count_ge_of_subset huv hs
    omega

theorem checkStraight5_characterization (nonWilds : List Card) (wc : Nat) (lr : Rank)
    (h : nonWilds.length + wc = 5) :
    ((checkStraightLike nonWilds wc 5 lr false).ok = true ↔
      ((∀ c ∈ nonWilds, getCardValue c lr ≤ 14)
        ∧ (nonWilds.map (fun c => rankToInt c.rank)).Nodup
        ∧ ∃ lo ∈ List.range' 1 10, ∀ c ∈ nonWilds, rankToInt c.rank ∈ straightWindow lo))
    ∧ ((checkStraightLike nonWilds wc 5 lr false).ok = true →
        ∃ lo ∈ List.range' 1 10, (∀ c ∈ nonWilds, rankToInt c.rank ∈ straightWindow lo)
          ∧ (checkStraightLike nonWilds wc 5 lr false).highValue
            = (if lo = 1 then 5 else lo + 4)) := by
  have hesub := List.length_filter_le (fun c => decide (getCardValue c lr ≤ 14)) nonWilds
  simp only [checkStraightLike]
  rw [if_neg (by simp : ¬ ((false = true)
    ∧ 1 < ((nonWilds.map (fun c => c.suit)).dedup).length))]
  by_cases g1 : (nonWilds.filter (fun c => decide (getCardValue c lr ≤ 14))).length + wc < 5
  · rw [if_pos g1]
    refine ⟨⟨fun hok => absurd hok (by simp), ?_⟩, fun hok => absurd hok (by simp)⟩
    rintro ⟨hall, -, -⟩
    exfalso
    have hfe : nonWilds.filter (fun c => decide (getCardValue c lr ≤ 14)) = nonWilds :=
      List.filter_eq_self.mpr (fun c hc => by simpa using hall c hc)
    rw [hfe] at g1
    omega
  · rw [if_neg g1]
    have hfe : nonWilds.filter (fun c => decide (getCardValue c lr ≤ 14)) = nonWilds := by
      refine (List.filter_sublist nonWilds).eq_of_length ?_
      omega
    rw [hfe]
    have g2 : ¬ (5 < nonWilds.length) := by omega
    rw [if_neg g2]
    have hall : ∀ c ∈ nonWilds, getCardValue c lr ≤ 14 := by
      intro c hc
      have := List.filter_eq_self.mp hfe c hc
      simpa using this
    have hkval : (sortAsc (keysInOrder (nonWilds.map (fun c => rankToInt c.rank)))).length
        = (keysInOrder (nonWilds.map (fun c => rankToInt c.rank))).length :=
      length_sortAsc _
    by_cases g3 : (sortAsc (keysInOrder (nonWilds.map (fun c => rankToInt c.rank)))).length
        ≠ nonWilds.length
    · rw [if_pos g3]
      refine ⟨⟨fun hok => absurd hok (by simp), ?_⟩, fun hok => absurd hok (by simp)⟩
      rintro ⟨-, hnd, -⟩
      exact absurd (by rw [hkval, keysInOrder_of_nodup hnd, List.length_map]) g3
    · rw [if_neg g3]
      push_neg at g3
      have hnd : (nonWilds.map (fun c => rankToInt c.rank)).Nodup := by
        refine nodup_of_keysInOrder_length ?_
        rw [← hkval, g3, List.length_map]
      have huvnd : (sortAsc (keysInOrder (nonWilds.map (fun c => rankToInt c.rank)))).Nodup :=
        nodup_sortAsc (nodup_keysInOrder _)
      have huvmem : ∀ a, a ∈ sortAsc (keysInOrder (nonWilds.map (fun c => rankToInt c.rank)))
          ↔ a ∈ nonWilds.map (fun c => rankToInt c.rank) := by
        intro a
        rw [mem_sortAsc, mem_keysInOrder]
      have hlo_iff : ∀ lo ∈ List.range' 1 10,
          (straightGaps (sortAsc (keysInOrder (nonWilds.map (fun c => rankToInt c.rank)))) lo 5 ≤ wc
            ↔ ∀ c ∈ nonWilds, rankToInt c.rank ∈ straightWindow lo) := by
        intro lo hlo
        rcases straightWindow_facts lo hlo with ⟨hWnd, hWlen⟩
        rw [gaps_le_iff huvnd hWnd hWlen (by omega)]
        constructor
        · intro hsub c hc
          exact hsub _ ((huvmem _).mpr (List.mem_map_of_mem _ hc))
        · intro hsub a ha
          rcases List.mem_map.mp ((huvmem a).mp ha) with ⟨c, hc, rfl⟩
          exact hsub c hc
      rcases hf : (List.range' 1 (15 - 5)).find?
          (fun lo => decide (straightGaps (sortAsc (keysInOrder
            (nonWilds.map (fun c => rankToInt c.rank)))) lo 5 ≤ wc)) with _ | lo
      · refine ⟨⟨fun hok => absurd hok (by simp), ?_⟩, fun hok => absurd hok (by simp)⟩
        rintro ⟨-, -, lo, hlo, hsub⟩
        have hnone := List.find?_eq_none.mp hf lo hlo
        exact absurd (by simpa using (hlo_iff lo hlo).mpr hsub) hnone
      · have hlo_mem : lo ∈ List.range' 1 10 := List.mem_of_find?_eq_some hf
        have hplo : straightGaps (sortAsc (keysInOrder
            (nonWilds.map (fun c => rankToInt c.rank)))) lo 5 ≤ wc := by
          simpa using List.find?_some hf
        have hsub := (hlo_iff lo hlo_mem).mp hplo
        refine ⟨⟨fun _ => ⟨hall, hnd, lo, hlo_mem, hsub⟩, fun _ => rfl⟩,
          fun _ => ⟨lo, hlo_mem, hsub, ?_⟩⟩
        by_cases hlo1 : lo = 1
        · simp [hlo1]
        · simp only [if_neg hlo1]
          omega

theorem wilds_add_nonWilds_length (cards : List Card) :
    (wildsOf cards).length + (nonWildsOf cards).length = cards.length := by
  unfold wildsOf nonWildsOf
  rw [← List.countP_eq_length_filter, ← List.countP_eq_length_filter]
  rw [List.length_eq_countP_add_countP (fun c => c.isWildcard) cards]
  congr 1
  refine List.countP_congr ?_
  intro a ha
  simp

/-- C4 as amended: on every 5-card input on which the earlier generic-bomb
block does not fire (on a straight-shaped hand it fires only when four of the
five cards are wildcards), the classifier returns a Straight exactly when the
spec's straight condition holds — non-wildcards of dynamic value at most 14,
pairwise-distinct natural values, all inside one window A2345..10JQKA with
wildcards filling the gaps — and the primaryValue is the top of the chosen
(lowest feasible) window, 5 for A2345. -/
theorem claim4_amended_straight_recognition (cards : List Card) (lr : Rank)
    (h5 : cards.length = 5)
    (hnb : classifyBombBlock cards.length (nonWildsOf cards) (wildsOf cards).length lr
      = none) :
    ((identifyPattern cards lr).type = PlayTypeName.Straight ↔ straightSpecC4 cards lr)
    ∧ ((identifyPattern cards lr).type = PlayTypeName.Straight →
        ∃ lo ∈ List.range' 1 10,
          (∀ c ∈ nonWildsOf cards, rankToInt c.rank ∈ straightWindow lo)
          ∧ (identifyPattern cards lr).primaryValue = (if lo = 1 then 5 else lo + 4)) := by
  have hsplit := wilds_add_nonWilds_length cards
  have hchar := checkStraight5_characterization (nonWildsOf cards) (wildsOf cards).length lr
    (by omega)
  have hnb5 : classifyBombBlock 5 (nonWildsOf cards) (wildsOf cards).length lr = none := by
    rw [← h5]
    exact hnb
  simp only [identifyPattern, hnb, hnb5, h5]
  rw [if_neg (by omega : ¬ (5 : Nat) = 0)]
  rw [if_neg (fun hx => by omega : ¬ ((5 : Nat) = 4
    ∧ cards.countP (fun c => decide (c.rank = Rank.Big)) = 2
    ∧ cards.countP (fun c => decide (c.rank = Rank.Small)) = 2))]
  rw [if_neg (by omega : ¬ (5 : Nat) = 1)]
  by_cases hj : (((nonWildsOf cards).all fun c => decide (c.suit = Suit.Joker)) = true
      ∧ (wildsOf cards).length = 0)
      ∧ (cards.all fun c => decide (c.suit = Suit.Joker)) = true
  · rw [if_pos hj]
    have hspec_false : ¬ straightSpecC4 cards lr := by
      rintro ⟨hall, -, -⟩
      have hnwlen : (nonWildsOf cards).length = 5 := by omega
      have hne : nonWildsOf cards ≠ [] := by
        intro hx
        rw [hx] at hnwlen
        simp at hnwlen
      rcases List.exists_mem_of_ne_nil _ hne with ⟨c, hc⟩
      have hcj : c.suit = Suit.Joker := by
        have := List.all_eq_true.mp hj.1.1 c hc
        simpa using this
      have hv := hall c hc
      unfold getCardValue at hv
      rw [if_pos hcj] at hv
      split_ifs at hv <;> omega
    refine ⟨⟨fun hx => absurd hx (by simp [INVALID]), fun hsp => absurd hsp hspec_false⟩,
      fun hx => absurd hx (by simp [INVALID])⟩
  · rw [if_neg hj]
    rw [if_pos trivial]
    simp only [classifyFive]
    rcases hchar with ⟨hiff, hpv⟩
    by_cases hs : (checkStraightLike (nonWildsOf cards) (wildsOf cards).length 5 lr false).ok
        = true
    · rw [if_pos hs]
      refine ⟨⟨fun _ => hiff.mp hs, fun _ => rfl⟩, fun _ => ?_⟩
      rcases hpv hs with ⟨lo, hlo, hsub, hhv⟩
      exact ⟨lo, hlo, hsub, hhv⟩
    · rw [if_neg hs]
      have hspec_false : ¬ straightSpecC4 cards lr := fun hsp => hs (hiff.mpr hsp)
      by_cases hsf : (checkStraightLike (nonWildsOf cards) (wildsOf cards).length 5 lr true).ok
          = true
      · exact absurd (checkStraightLike_flush_imp hsf) hs
      · rw [if_neg hsf]
        by_cases hjj : ¬ (cards.any fun c =>
            decide (c.suit = Suit.Joker ∧ c.isWildcard = false)) = true
        · rw [if_pos hjj]
          rcases tryTripleWithPair_shape (nonWildsOf cards) (wildsOf cards).length lr
            with hI | ⟨v, hV⟩
          · rw [hI]
            refine ⟨⟨fun hx => absurd hx (by simp [INVALID]),
              fun hsp => absurd hsp hspec_false⟩, fun hx => absurd hx (by simp [INVALID])⟩
          · rw [hV]
            refine ⟨⟨fun hx => absurd hx (by simp), fun hsp => absurd hsp hspec_false⟩,
              fun hx => absurd hx (by simp)⟩
        · rw [if_neg hjj]
          refine ⟨⟨fun hx => absurd hx (by simp [INVALID]),
            fun hsp => absurd hsp hspec_false⟩, fun hx => absurd hx (by simp [INVALID])⟩

/-- Closed instantiation of C4 (amended) at the spec's own example: the hand
spade A, heart 2, club 3, diamond 4, spade 5 at level rank K classifies as a
Straight with primaryValue 5 (A playing low), not 14. -/
theorem claim4_amended_straight_recognition_witness :
    (identifyPattern [⟨Suit.Spades, Rank.A, false, none⟩, ⟨Suit.Hearts, Rank.r2, false, none⟩,
        ⟨Suit.Clubs, Rank.r3, false, none⟩, ⟨Suit.Diamonds, Rank.r4, false, none⟩,
        ⟨Suit.Spades, Rank.r5, false, none⟩] Rank.K).type = PlayTypeName.Straight
    ∧ (identifyPattern [⟨Suit.Spades, Rank.A, false, none⟩, ⟨Suit.Hearts, Rank.r2, false, none⟩,
        ⟨Suit.Clubs, Rank.r3, false, none⟩, ⟨Suit.Diamonds, Rank.r4, false, none⟩,
        ⟨Suit.Spades, Rank.r5, false, none⟩] Rank.K).primaryValue = 5 := by
  have h := claim4_amended_straight_recognition
    [⟨Suit.Spades, Rank.A, false, none⟩, ⟨Suit.Hearts, Rank.r2, false, none⟩,
     ⟨Suit.Clubs, Rank.r3, false, none⟩, ⟨Suit.Diamonds, Rank.r4, false, none⟩,
     ⟨Suit.Spades, Rank.r5, false, none⟩] Rank.K (by decide) (by decide)
  have htype := h.1.mpr (by decide)
  refine ⟨htype, ?_⟩
  rcases h.2 htype with ⟨lo, hlo, hsub, hpv⟩
  have hlo1 : lo = 1 := by
    have h5mem : (5 : Nat) ∈ straightWindow lo := hsub ⟨Suit.Spades, Rank.r5, false, none⟩
      (by decide)
    have h14mem : (14 : Nat) ∈ straightWindow lo := hsub ⟨Suit.Spades, Rank.A, false, none⟩
      (by decide)
    by_contra hne
    fin_cases hlo <;> simp_all [straightWindow]
  rw [hpv, if_pos hlo1]
